import Mathlib

/-!
Verification of the BearLang three-stage translation pipeline:
the indentation-aware lexer, the recursive-descent parser and the
C++ code generator, as implemented in the repository
(token.h / lexer.h / lexer.cpp, parser.h / parser.cpp, ast.h,
codegen.h / codegen.cpp, the variant with the block-scoped NameMangler).

Embedding conventions.

The C++ lexer iterates over the bytes of a std::string with a mutable
cursor.  Here the remaining input is a List Char and the cursor is implicit;
a byte at or above 128 corresponds to a Char whose code point is at or
above 128 (each byte of a UTF-8 encoded non-ASCII code point is at or
above 128, so identifier and keyword boundaries agree with the byte-level
scanner on well-formed UTF-8 input; column counters may differ on
non-ASCII text, and no theorem below depends on a column measured past
non-ASCII text).

Loops that the C++ writes with a mutable cursor are written as recursion;
where a loop is not structurally decreasing on its input it takes a fuel
argument.  Every public entry point supplies fuel that dominates the
number of loop iterations the C++ performs (each iteration of the C++
loops consumes input or irreversibly flips the at-line-start flag, so
for the lexer two units of fuel per input character plus a constant
is enough; the parser and the generator are given similarly generous
budgets), so the fuel-exhaustion branches are unreachable from the
entry points; they exist only to make the recursion structural.

C++ exceptions (LexerError, ParserError - both carry only a message
string) become Except String results, so a throw discards, exactly as in
the C++ API, every token or partial output accumulated so far.
-/

namespace BearLang

/-! ## Tokens (token.h) -/

/-- TokenType from token.h, all 41 alternatives. -/
inductive TokenType where
  | EndOfFile | Newline | Indent | Dedent
  | Identifier | IntegerLiteral | DoubleLiteral | StringLiteral
  | KeywordInteger | KeywordDouble | KeywordString | KeywordLogic
  | KeywordIf | KeywordElse | KeywordWhile | KeywordFor
  | KeywordInput | KeywordOutput | KeywordAnd | KeywordOr | KeywordNot
  | KeywordFrom | KeywordTo | KeywordTrue | KeywordFalse
  | LeftParen | RightParen
  | Plus | Minus | Star | Slash | Percent | Caret
  | Assign | Equal | Less | LessEqual | Greater | GreaterEqual | Comma
deriving DecidableEq, Repr

/-- Token from token.h. -/
structure Token where
  type : TokenType
  lexeme : String
  line : Nat
  column : Nat
deriving DecidableEq, Repr

/-- isTypeKeyword from token.h. -/
def isTypeKeyword (type : TokenType) : Bool :=
  type = TokenType.KeywordInteger || type = TokenType.KeywordDouble ||
  type = TokenType.KeywordString || type = TokenType.KeywordLogic

/-! ## Lexer (lexer.h / lexer.cpp) -/

/-- The kKeywords table of lexer.cpp. -/
def keywordType (text : String) : Option TokenType :=
  if text = "целое" then some .KeywordInteger
  else if text = "дробное" then some .KeywordDouble
  else if text = "строка" then some .KeywordString
  else if text = "логика" then some .KeywordLogic
  else if text = "если" then some .KeywordIf
  else if text = "иначе" then some .KeywordElse
  else if text = "пока" then some .KeywordWhile
  else if text = "для" then some .KeywordFor
  else if text = "ввод" then some .KeywordInput
  else if text = "вывод" then some .KeywordOutput
  else if text = "и" then some .KeywordAnd
  else if text = "или" then some .KeywordOr
  else if text = "не" then some .KeywordNot
  else if text = "от" then some .KeywordFrom
  else if text = "до" then some .KeywordTo
  else if text = "правда" then some .KeywordTrue
  else if text = "ложь" then some .KeywordFalse
  else none

/-- Lexer::isIdentifierStart: ASCII alphabetic, underscore, or a byte at or
above 128 (here: a Char with code point at or above 128). -/
def isIdentifierStart (c : Char) : Bool :=
  c.isAlpha || c = '_' || 128 ≤ c.val

/-- Lexer::isIdentifierPart: ASCII alphanumeric, underscore, or at or above 128. -/
def isIdentifierPart (c : Char) : Bool :=
  c.isAlphanum || c = '_' || 128 ≤ c.val

/-- The indentation measuring loop at the top of Lexer::tokenize: a space
counts 1, a tab counts 4, a carriage return is consumed silently.  Returns
the number of characters consumed and the measured indent width. -/
def measureIndent : List Char → Nat × Nat
  | [] => (0, 0)
  | c :: rest =>
    if c = ' ' then
      let (k, w) := measureIndent rest
      (k + 1, w + 1)
    else if c = '\t' then
      let (k, w) := measureIndent rest
      (k + 1, w + 4)
    else if c = '\r' then
      let (k, w) := measureIndent rest
      (k + 1, w)
    else (0, 0)

/-- An INDENT token as pushed by Lexer::handleIndentation. -/
def indentTok (line : Nat) : Token := ⟨.Indent, "", line, 1⟩

/-- A DEDENT token as pushed by Lexer::handleIndentation and
Lexer::emitPendingDedents. -/
def dedentTok (line : Nat) : Token := ⟨.Dedent, "", line, 1⟩

/-- The pop loop of Lexer::handleIndentation: while the measured indent is
smaller than the top of the stack, pop and emit one DEDENT per pop.  The
stack keeps its innermost level at the head; the token accumulator is kept
newest first and reversed once at the end of tokenize. -/
def dedentPop (spaces line : Nat) : List Nat → List Token → List Nat × List Token
  | [], toks => ([], toks)
  | t :: rest, toks =>
    if spaces < t then dedentPop spaces line rest (dedentTok line :: toks)
    else (t :: rest, toks)

/-- Lexer::handleIndentation.  The C++ reads indentStack_.back() on a stack
that is never empty (it starts as [0] and level 0 is never popped because
the pop condition spaces < 0 is unsatisfiable); headD 0 realises the same
reads totally. -/
def handleIndentation (spaces line : Nat) (stack : List Nat) (toks : List Token) :
    Except String (List Nat × List Token) :=
  if spaces > stack.headD 0 then
    .ok (spaces :: stack, indentTok line :: toks)
  else
    let popped := dedentPop spaces line stack toks
    if spaces ≠ popped.1.headD 0 then
      .error ("Несогласованный отступ на строке " ++ toString line)
    else
      .ok popped

/-- Lexer::emitPendingDedents: pop every level above the base level,
emitting one DEDENT per pop. -/
def emitPendingDedents (line : Nat) : List Nat → List Token → List Token
  | [], toks => toks
  | [_], toks => toks
  | _ :: rest₂ :: rest, toks =>
    emitPendingDedents line (rest₂ :: rest) (dedentTok line :: toks)

/-- The comment loop Lexer::skipComment: consume up to, and not including,
the next newline; returns the number of characters consumed and the rest. -/
def skipToNewline : List Char → Nat × List Char
  | [] => (0, [])
  | c :: rest =>
    if c = '\n' then (0, c :: rest)
    else
      let (k, r) := skipToNewline rest
      (k + 1, r)

/-- The body loop of Lexer::scanString, entered after the opening quote has
been consumed: returns the decoded payload and the input remaining after
the closing quote, or the LexerError message the C++ throws. -/
def scanStringBody : List Char → Except String (List Char × List Char)
  | [] => .error "Незакрытая строка"
  | c :: rest =>
    if c = '\n' then
      .error "Строковый литерал не может переноситься на новую строку"
    else if c = '"' then
      .ok ([], rest)
    else if c = '\\' then
      match rest with
      | [] => .error "Незавершённая escape-последовательность"
      | e :: rest₂ =>
        let decoded : Except String Char :=
          if e = '\\' then .ok '\\'
          else if e = '"' then .ok '"'
          else if e = 'n' then .ok '\n'
          else if e = 't' then .ok '\t'
          else .error "Неизвестная escape-последовательность"
        match decoded with
        | .error msg => .error msg
        | .ok d =>
          match scanStringBody rest₂ with
          | .error msg => .error msg
          | .ok (payload, r) => .ok (d :: payload, r)
    else
      match scanStringBody rest with
      | .error msg => .error msg
      | .ok (payload, r) => .ok (c :: payload, r)

/-- The digit loop of Lexer::scanNumber: consume digits, and at most one
dot that is immediately followed by a digit.  Returns the consumed text,
the rest, and whether a dot was seen. -/
def scanNumberBody : List Char → Bool → List Char × List Char × Bool
  | [], seenDot => ([], [], seenDot)
  | c :: rest, seenDot =>
    if c.isDigit then
      let (t, r, sd) := scanNumberBody rest seenDot
      (c :: t, r, sd)
    else if c = '.' && !seenDot && (match rest with | [] => false | d :: _ => d.isDigit) then
      let (t, r, sd) := scanNumberBody rest true
      (c :: t, r, sd)
    else ([], c :: rest, seenDot)

/-- The identifier loop of Lexer::scanIdentifierOrKeyword: consume the
maximal run of identifier characters. -/
def scanIdentBody : List Char → List Char × List Char
  | [] => ([], [])
  | c :: rest =>
    if isIdentifierPart c then
      let (t, r) := scanIdentBody rest
      (c :: t, r)
    else ([], c :: rest)

/-- The mutable state of the Lexer object during tokenize: current line,
current column, the at-line-start flag, the indent stack (innermost level
first) and the tokens accumulated so far (newest first). -/
structure LexState where
  line : Nat
  column : Nat
  atLineStart : Bool
  indentStack : List Nat
  tokens : List Token
deriving Repr

/-- The epilogue of Lexer::tokenize: emit the pending DEDENTs, push EOF,
return the accumulated tokens in emission order. -/
def finishTokens (st : LexState) : List Token :=
  ((⟨.EndOfFile, "", st.line, st.column⟩ : Token)
      :: emitPendingDedents st.line st.indentStack st.tokens).reverse

/-- The main loop of Lexer::tokenize.  One application of the fuel
corresponds to one iteration of the C++ while loop (the blank-line case,
which in the C++ falls through from the indent handling to the newline
scanner inside a single iteration, is merged into one step here, and the
case that handles indentation before scanning the first token of a line
spends one step without consuming input, exactly as the C++ iteration
that runs handleIndentation and then scans a token spends one iteration;
the scanners consume their characters in the same step).  The body of
one iteration is lexStep, split into its line-start half lexLineStart and
its scanning half lexScan, with the recursive continuation passed in; the
fuel-counted loop tokenizeAux follows.  This first definition is the
line-start half. -/
def lexLineStart (recur : List Char → LexState → Except String (List Token))
    (src : List Char) (st : LexState) : Except String (List Token) :=
  let (k, width) := measureIndent src
  match src.drop k with
  | [] => .ok (finishTokens st)
  | c :: rest₂ =>
    if c = '\n' then
      recur rest₂
        { st with line := st.line + 1, column := 1, atLineStart := true,
                  tokens := ⟨.Newline, "", st.line, 1⟩ :: st.tokens }
    else if c = '/' && rest₂.head? = some '/' then
      let (kc, r) := skipToNewline (c :: rest₂)
      recur r { st with column := width + 1 + kc }
    else
      match handleIndentation width st.line st.indentStack st.tokens with
      | .error msg => .error msg
      | .ok (stack, toks) =>
        recur (c :: rest₂)
          { st with column := width + 1, atLineStart := false,
                    indentStack := stack, tokens := toks }

/-- The scanning half of one iteration of the tokenize loop: dispatch on
the current character as the C++ does after the indentation handling. -/
def lexScan (recur : List Char → LexState → Except String (List Token))
    (src : List Char) (st : LexState) : Except String (List Token) :=
  match src with
  | [] => .ok (finishTokens st)
  | c :: rest =>
    if c = ' ' || c = '\t' then
      recur rest { st with column := st.column + 1 }
    else if c = '\r' then
      recur rest st
    else if c = '\n' then
      recur rest
        { st with line := st.line + 1, column := 1, atLineStart := true,
                  tokens := ⟨.Newline, "", st.line, st.column⟩ :: st.tokens }
    else if c = '/' && rest.head? = some '/' then
      let (k, r) := skipToNewline (c :: rest)
      recur r { st with column := st.column + k }
    else if c = '"' then
      match scanStringBody rest with
      | .error msg => .error msg
      | .ok (payload, r) =>
        recur r
          { st with column := st.column + 1 + (rest.length - r.length),
                    tokens := ⟨.StringLiteral, String.mk payload, st.line, st.column⟩
                                :: st.tokens }
    else if c.isDigit then
      let (text, r, seenDot) := scanNumberBody (c :: rest) false
      recur r
        { st with column := st.column + text.length,
                  tokens := ⟨if seenDot then .DoubleLiteral else .IntegerLiteral,
                             String.mk text, st.line, st.column⟩ :: st.tokens }
    else if isIdentifierStart c then
      let (text, r) := scanIdentBody (c :: rest)
      let s := String.mk text
      recur r
        { st with column := st.column + text.length,
                  tokens := ⟨(keywordType s).getD .Identifier, s, st.line, st.column⟩
                              :: st.tokens }
    else if c = '+' then
      recur rest
        { st with column := st.column + 1,
                  tokens := ⟨.Plus, "", st.line, st.column⟩ :: st.tokens }
    else if c = '-' then
      recur rest
        { st with column := st.column + 1,
                  tokens := ⟨.Minus, "", st.line, st.column⟩ :: st.tokens }
    else if c = '*' then
      recur rest
        { st with column := st.column + 1,
                  tokens := ⟨.Star, "", st.line, st.column⟩ :: st.tokens }
    else if c = '/' then
      recur rest
        { st with column := st.column + 1,
                  tokens := ⟨.Slash, "", st.line, st.column⟩ :: st.tokens }
    else if c = '%' then
      recur rest
        { st with column := st.column + 1,
                  tokens := ⟨.Percent, "", st.line, st.column⟩ :: st.tokens }
    else if c = '^' then
      recur rest
        { st with column := st.column + 1,
                  tokens := ⟨.Caret, "", st.line, st.column⟩ :: st.tokens }
    else if c = '(' then
      recur rest
        { st with column := st.column + 1,
                  tokens := ⟨.LeftParen, "", st.line, st.column⟩ :: st.tokens }
    else if c = ')' then
      recur rest
        { st with column := st.column + 1,
                  tokens := ⟨.RightParen, "", st.line, st.column⟩ :: st.tokens }
    else if c = ',' then
      recur rest
        { st with column := st.column + 1,
                  tokens := ⟨.Comma, "", st.line, st.column⟩ :: st.tokens }
    else if c = '=' then
      if rest.head? = some '=' then
        recur rest.tail
          { st with column := st.column + 2,
                    tokens := ⟨.Equal, "", st.line, st.column⟩ :: st.tokens }
      else
        recur rest
          { st with column := st.column + 1,
                    tokens := ⟨.Assign, "", st.line, st.column⟩ :: st.tokens }
    else if c = '<' then
      if rest.head? = some '=' then
        recur rest.tail
          { st with column := st.column + 2,
                    tokens := ⟨.LessEqual, "", st.line, st.column⟩ :: st.tokens }
      else
        recur rest
          { st with column := st.column + 1,
                    tokens := ⟨.Less, "", st.line, st.column⟩ :: st.tokens }
    else if c = '>' then
      if rest.head? = some '=' then
        recur rest.tail
          { st with column := st.column + 2,
                    tokens := ⟨.GreaterEqual, "", st.line, st.column⟩ :: st.tokens }
      else
        recur rest
          { st with column := st.column + 1,
                    tokens := ⟨.Greater, "", st.line, st.column⟩ :: st.tokens }
    else
      .error ("Неизвестный символ \x27" ++ String.singleton c ++ "\x27 на строке "
                ++ toString st.line ++ ":" ++ toString st.column)

/-- One full iteration of the tokenize loop. -/
def lexStep (recur : List Char → LexState → Except String (List Token))
    (src : List Char) (st : LexState) : Except String (List Token) :=
  if st.atLineStart then lexLineStart recur src st
  else lexScan recur src st

/-- The main loop, one lexStep per unit of fuel. -/
def tokenizeAux : Nat → List Char → LexState → Except String (List Token)
  | 0, _, _ => .error "внутренняя ошибка: закончилось топливо лексера"
  | fuel + 1, src, st => lexStep (fun src' st' => tokenizeAux fuel src' st') src st

/-- The initial Lexer state: line 1, column 1, at line start, indent stack
holding only the base level 0, no tokens. -/
def initLexState : LexState := ⟨1, 1, true, [0], []⟩

/-- Lexer::tokenize on the characters of the source. -/
def tokenize (src : List Char) : Except String (List Token) :=
  tokenizeAux (2 * src.length + 4) src initLexState

/-! ## AST (ast.h) -/

/-- ValueType from ast.h. -/
inductive ValueType where
  | Integer | Double | StringT | Boolean | Unknown
deriving DecidableEq, Repr

/-- Expression from ast.h (the tagged variant: Literal, Variable, Unary,
Binary).  The constructor for Variable is named var because variable is a
reserved word of the proof language. -/
inductive Expr where
  | literal (type : ValueType) (text : String) (boolValue : Bool)
  | var (name : String)
  | unary (op : String) (operand : Expr)
  | binary (op : String) (left : Expr) (right : Expr)
deriving Repr

/-- Statement from ast.h.  An If carries its branches as pairs of a
condition and a body, the else body and the hasElse flag; input and output
carry a T suffix because of reserved words. -/
inductive Stmt where
  | varDecl (type : ValueType) (name : String) (initializer : Option Expr)
  | assign (name : String) (value : Expr)
  | inputT (name : String)
  | outputT (value : Expr)
  | ifS (branches : List (Expr × List Stmt)) (elseBranch : List Stmt) (hasElse : Bool)
  | whileS (condition : Expr) (body : List Stmt)
  | forRange (type : ValueType) (name : String) (fromE : Expr) (toE : Expr)
      (body : List Stmt)
deriving Repr

/-! ## Parser (parser.h / parser.cpp)

The C++ Parser object holds the token vector and a cursor.  Recursion that
the C++ realises as mutual recursion between member functions is tied here
by passing the recursive entry (parseExpression for the parenthesised
primary, parseStatement for indented blocks) as an explicit function
argument; every looping member takes a fuel argument as explained at the
top of the file. -/

/-- The token Parser::peek would read past the end of the vector; streams
produced by tokenize always end in EOF, so within the pipeline the default
is never consulted with a different meaning. -/
def eofToken : Token := ⟨.EndOfFile, "", 0, 0⟩

/-- The parser state: the token vector and the cursor current_. -/
structure PSt where
  toks : List Token
  cur : Nat
deriving Repr

/-- Parser::peek. -/
def peekT (p : PSt) : Token := p.toks.getD p.cur eofToken

/-- Parser::isAtEnd. -/
def isAtEnd (p : PSt) : Bool := (peekT p).type = .EndOfFile

/-- Parser::check: false at end of stream, so check EndOfFile never
holds. -/
def checkT (p : PSt) (type : TokenType) : Bool :=
  if isAtEnd p then false else (peekT p).type = type

/-- Parser::advance: step the cursor unless at end, return the consumed
token (C++ returns previous() after the increment). -/
def advanceT (p : PSt) : Token × PSt :=
  if isAtEnd p then (p.toks.getD (p.cur - 1) eofToken, p)
  else (peekT p, { p with cur := p.cur + 1 })

/-- Parser::match. -/
def matchT (p : PSt) (type : TokenType) : Bool × PSt :=
  if checkT p type then (true, (advanceT p).2) else (false, p)

/-- Parser::consume. -/
def consumeT (p : PSt) (type : TokenType) (message : String) :
    Except String (Token × PSt) :=
  if checkT p type then .ok (advanceT p) else .error message

/-- The loop of Parser::skipNewlines; it advances at most once per
remaining token, so the remaining count bounds its iterations. -/
def skipNewlinesAux : Nat → PSt → PSt
  | 0, p => p
  | n + 1, p => if checkT p .Newline then skipNewlinesAux n (advanceT p).2 else p

/-- Parser::skipNewlines. -/
def skipNewlinesT (p : PSt) : PSt := skipNewlinesAux (p.toks.length - p.cur) p

/-- Parser::expectNewline.  Note that check EndOfFile is identically false
in the C++ (check returns false when isAtEnd), so a simple statement that
ends at EOF without a NEWLINE or DEDENT is rejected. -/
def expectNewlineT (p : PSt) (context : String) : Except String PSt :=
  if checkT p .Newline then .ok (skipNewlinesT (advanceT p).2)
  else if checkT p .Dedent || checkT p .EndOfFile then .ok p
  else .error ("Ожидается перевод строки после " ++ context)

/-- Parser::parseTypeKeyword. -/
def parseTypeKeywordT (p : PSt) (context : String) :
    Except String (ValueType × PSt) :=
  if checkT p .KeywordInteger then .ok (.Integer, (advanceT p).2)
  else if checkT p .KeywordDouble then .ok (.Double, (advanceT p).2)
  else if checkT p .KeywordString then .ok (.StringT, (advanceT p).2)
  else if checkT p .KeywordLogic then .ok (.Boolean, (advanceT p).2)
  else .error ("Ожидается тип для " ++ context)

/-- The result type of the parsing members: a value and the advanced
state, or the ParserError message. -/
abbrev PRes (α : Type) := Except String (α × PSt)

/-- The message of the unreachable fuel-exhaustion branches of the
parser. -/
def parserFuelMsg : String := "внутренняя ошибка: закончилось топливо парсера"

/-- Parser::parsePrimary; pExpr is the parenthesised recursion into
Parser::parseExpression. -/
def parsePrimary (pExpr : PSt → PRes Expr) (p : PSt) : PRes Expr :=
  if checkT p .IntegerLiteral then
    let (t, p) := advanceT p
    .ok (.literal .Integer t.lexeme false, p)
  else if checkT p .DoubleLiteral then
    let (t, p) := advanceT p
    .ok (.literal .Double t.lexeme false, p)
  else if checkT p .StringLiteral then
    let (t, p) := advanceT p
    .ok (.literal .StringT t.lexeme false, p)
  else if checkT p .KeywordTrue then
    let (_, p) := advanceT p
    .ok (.literal .Boolean "true" true, p)
  else if checkT p .KeywordFalse then
    let (_, p) := advanceT p
    .ok (.literal .Boolean "false" false, p)
  else if checkT p .Identifier then
    let (t, p) := advanceT p
    .ok (.var t.lexeme, p)
  else if checkT p .LeftParen then
    let (_, p) := advanceT p
    match pExpr p with
    | .error msg => .error msg
    | .ok (e, p) =>
      match consumeT p .RightParen "Ожидается \x27)\x27 " with
      | .error msg => .error msg
      | .ok (_, p) => .ok (e, p)
  else
    .error ("Неожиданный токен \x27" ++ (peekT p).lexeme ++ "\x27")

/-- Parser::parseUnary. -/
def parseUnary (pExpr : PSt → PRes Expr) : Nat → PSt → PRes Expr
  | 0, _ => .error parserFuelMsg
  | fuel + 1, p =>
    let (m, p₁) := matchT p .Minus
    if m then
      match parseUnary pExpr fuel p₁ with
      | .error msg => .error msg
      | .ok (operand, p₂) => .ok (.unary "-" operand, p₂)
    else
      let (mn, p₁) := matchT p .KeywordNot
      if mn then
        match parseUnary pExpr fuel p₁ with
        | .error msg => .error msg
        | .ok (operand, p₂) => .ok (.unary "!" operand, p₂)
      else parsePrimary pExpr p

/-- Parser::parsePower: one optional caret, recursing on the right, which
makes the caret right-associative. -/
def parsePower (pExpr : PSt → PRes Expr) : Nat → PSt → PRes Expr
  | 0, _ => .error parserFuelMsg
  | fuel + 1, p =>
    match parseUnary pExpr fuel p with
    | .error msg => .error msg
    | .ok (expr, p₁) =>
      let (m, p₂) := matchT p₁ .Caret
      if m then
        match parsePower pExpr fuel p₂ with
        | .error msg => .error msg
        | .ok (right, p₃) => .ok (.binary "^" expr right, p₃)
      else .ok (expr, p₂)

/-- The while loop of Parser::parseFactor. -/
def parseFactorLoop (pExpr : PSt → PRes Expr) : Nat → Expr → PSt → PRes Expr
  | 0, _, _ => .error parserFuelMsg
  | fuel + 1, expr, p =>
    let (ms, p₁) := matchT p .Star
    if ms then
      match parsePower pExpr fuel p₁ with
      | .error msg => .error msg
      | .ok (right, p₂) => parseFactorLoop pExpr fuel (.binary "*" expr right) p₂
    else
      let (md, p₁) := matchT p .Slash
      if md then
        match parsePower pExpr fuel p₁ with
        | .error msg => .error msg
        | .ok (right, p₂) => parseFactorLoop pExpr fuel (.binary "/" expr right) p₂
      else
        let (mp, p₁) := matchT p .Percent
        if mp then
          match parsePower pExpr fuel p₁ with
          | .error msg => .error msg
          | .ok (right, p₂) => parseFactorLoop pExpr fuel (.binary "%" expr right) p₂
        else .ok (expr, p₁)

/-- Parser::parseFactor. -/
def parseFactor (pExpr : PSt → PRes Expr) : Nat → PSt → PRes Expr
  | 0, _ => .error parserFuelMsg
  | fuel + 1, p =>
    match parsePower pExpr fuel p with
    | .error msg => .error msg
    | .ok (expr, p₁) => parseFactorLoop pExpr fuel expr p₁

/-- The while loop of Parser::parseTerm. -/
def parseTermLoop (pExpr : PSt → PRes Expr) : Nat → Expr → PSt → PRes Expr
  | 0, _, _ => .error parserFuelMsg
  | fuel + 1, expr, p =>
    let (mp, p₁) := matchT p .Plus
    if mp then
      match parseFactor pExpr fuel p₁ with
      | .error msg => .error msg
      | .ok (right, p₂) => parseTermLoop pExpr fuel (.binary "+" expr right) p₂
    else
      let (mm, p₁) := matchT p .Minus
      if mm then
        match parseFactor pExpr fuel p₁ with
        | .error msg => .error msg
        | .ok (right, p₂) => parseTermLoop pExpr fuel (.binary "-" expr right) p₂
      else .ok (expr, p₁)

/-- Parser::parseTerm. -/
def parseTerm (pExpr : PSt → PRes Expr) : Nat → PSt → PRes Expr
  | 0, _ => .error parserFuelMsg
  | fuel + 1, p =>
    match parseFactor pExpr fuel p with
    | .error msg => .error msg
    | .ok (expr, p₁) => parseTermLoop pExpr fuel expr p₁

/-- The while loop of Parser::parseComparison. -/
def parseComparisonLoop (pExpr : PSt → PRes Expr) : Nat → Expr → PSt → PRes Expr
  | 0, _, _ => .error parserFuelMsg
  | fuel + 1, expr, p =>
    let (ml, p₁) := matchT p .Less
    if ml then
      match parseTerm pExpr fuel p₁ with
      | .error msg => .error msg
      | .ok (right, p₂) => parseComparisonLoop pExpr fuel (.binary "<" expr right) p₂
    else
      let (mle, p₁) := matchT p .LessEqual
      if mle then
        match parseTerm pExpr fuel p₁ with
        | .error msg => .error msg
        | .ok (right, p₂) => parseComparisonLoop pExpr fuel (.binary "<=" expr right) p₂
      else
        let (mg, p₁) := matchT p .Greater
        if mg then
          match parseTerm pExpr fuel p₁ with
          | .error msg => .error msg
          | .ok (right, p₂) => parseComparisonLoop pExpr fuel (.binary ">" expr right) p₂
        else
          let (mge, p₁) := matchT p .GreaterEqual
          if mge then
            match parseTerm pExpr fuel p₁ with
            | .error msg => .error msg
            | .ok (right, p₂) =>
              parseComparisonLoop pExpr fuel (.binary ">=" expr right) p₂
          else .ok (expr, p₁)

/-- Parser::parseComparison. -/
def parseComparison (pExpr : PSt → PRes Expr) : Nat → PSt → PRes Expr
  | 0, _ => .error parserFuelMsg
  | fuel + 1, p =>
    match parseTerm pExpr fuel p with
    | .error msg => .error msg
    | .ok (expr, p₁) => parseComparisonLoop pExpr fuel expr p₁

/-- The while loop of Parser::parseEquality. -/
def parseEqualityLoop (pExpr : PSt → PRes Expr) : Nat → Expr → PSt → PRes Expr
  | 0, _, _ => .error parserFuelMsg
  | fuel + 1, expr, p =>
    let (m, p₁) := matchT p .Equal
    if m then
      match parseComparison pExpr fuel p₁ with
      | .error msg => .error msg
      | .ok (right, p₂) => parseEqualityLoop pExpr fuel (.binary "==" expr right) p₂
    else .ok (expr, p₁)

/-- Parser::parseEquality. -/
def parseEquality (pExpr : PSt → PRes Expr) : Nat → PSt → PRes Expr
  | 0, _ => .error parserFuelMsg
  | fuel + 1, p =>
    match parseComparison pExpr fuel p with
    | .error msg => .error msg
    | .ok (expr, p₁) => parseEqualityLoop pExpr fuel expr p₁

/-- The while loop of Parser::parseAnd. -/
def parseAndLoop (pExpr : PSt → PRes Expr) : Nat → Expr → PSt → PRes Expr
  | 0, _, _ => .error parserFuelMsg
  | fuel + 1, expr, p =>
    let (m, p₁) := matchT p .KeywordAnd
    if m then
      match parseEquality pExpr fuel p₁ with
      | .error msg => .error msg
      | .ok (right, p₂) => parseAndLoop pExpr fuel (.binary "&&" expr right) p₂
    else .ok (expr, p₁)

/-- Parser::parseAnd. -/
def parseAnd (pExpr : PSt → PRes Expr) : Nat → PSt → PRes Expr
  | 0, _ => .error parserFuelMsg
  | fuel + 1, p =>
    match parseEquality pExpr fuel p with
    | .error msg => .error msg
    | .ok (expr, p₁) => parseAndLoop pExpr fuel expr p₁

/-- The while loop of Parser::parseOr. -/
def parseOrLoop (pExpr : PSt → PRes Expr) : Nat → Expr → PSt → PRes Expr
  | 0, _, _ => .error parserFuelMsg
  | fuel + 1, expr, p =>
    let (m, p₁) := matchT p .KeywordOr
    if m then
      match parseAnd pExpr fuel p₁ with
      | .error msg => .error msg
      | .ok (right, p₂) => parseOrLoop pExpr fuel (.binary "||" expr right) p₂
    else .ok (expr, p₁)

/-- Parser::parseOr. -/
def parseOr (pExpr : PSt → PRes Expr) : Nat → PSt → PRes Expr
  | 0, _ => .error parserFuelMsg
  | fuel + 1, p =>
    match parseAnd pExpr fuel p with
    | .error msg => .error msg
    | .ok (expr, p₁) => parseOrLoop pExpr fuel expr p₁

/-- Parser::parseExpression, tying the parenthesised-primary knot. -/
def parseExpression : Nat → PSt → PRes Expr
  | 0, _ => .error parserFuelMsg
  | fuel + 1, p => parseOr (fun p' => parseExpression fuel p') fuel p

/-- Parser::parseParenthesizedCondition. -/
def parseParenthesizedCondition (fuel : Nat) (context : String) (p : PSt) :
    PRes Expr :=
  match consumeT p .LeftParen ("Ожидается \x27(\x27 после " ++ context) with
  | .error msg => .error msg
  | .ok (_, p) =>
    match parseExpression fuel p with
    | .error msg => .error msg
    | .ok (condition, p) =>
      match consumeT p .RightParen ("Ожидается \x27)\x27 после условия " ++ context) with
      | .error msg => .error msg
      | .ok (_, p) => .ok (condition, p)

/-- Parser::parseVarDecl. -/
def parseVarDeclT (fuel : Nat) (p : PSt) : PRes Stmt :=
  let (typeToken, p) := advanceT p
  let type : ValueType :=
    match typeToken.type with
    | .KeywordInteger => .Integer
    | .KeywordDouble => .Double
    | .KeywordString => .StringT
    | .KeywordLogic => .Boolean
    | _ => .Unknown
  match consumeT p .Identifier "Ожидается имя переменной" with
  | .error msg => .error msg
  | .ok (name, p) =>
    let (m, p) := matchT p .Assign
    let initAndState : Except String (Option Expr × PSt) :=
      if m then
        match parseExpression fuel p with
        | .error msg => .error msg
        | .ok (e, p) => .ok (some e, p)
      else .ok (none, p)
    match initAndState with
    | .error msg => .error msg
    | .ok (initializer, p) =>
      match expectNewlineT p "объявления переменной" with
      | .error msg => .error msg
      | .ok p => .ok (.varDecl type name.lexeme initializer, p)

/-- Parser::parseAssignment. -/
def parseAssignmentT (fuel : Nat) (p : PSt) : PRes Stmt :=
  let (name, p) := advanceT p
  match consumeT p .Assign "Ожидается \x27=\x27 в присваивании" with
  | .error msg => .error msg
  | .ok (_, p) =>
    match parseExpression fuel p with
    | .error msg => .error msg
    | .ok (value, p) =>
      match expectNewlineT p "присваивания" with
      | .error msg => .error msg
      | .ok p => .ok (.assign name.lexeme value, p)

/-- Parser::parseInput. -/
def parseInputT (p : PSt) : PRes Stmt :=
  let (_, p) := advanceT p
  match consumeT p .Identifier "Ожидается переменная для ввода" with
  | .error msg => .error msg
  | .ok (name, p) =>
    match expectNewlineT p "оператора ввода" with
    | .error msg => .error msg
    | .ok p => .ok (.inputT name.lexeme, p)

/-- Parser::parseOutput. -/
def parseOutputT (fuel : Nat) (p : PSt) : PRes Stmt :=
  let (_, p) := advanceT p
  match parseExpression fuel p with
  | .error msg => .error msg
  | .ok (value, p) =>
    match expectNewlineT p "оператора вывода" with
    | .error msg => .error msg
    | .ok p => .ok (.outputT value, p)

/-- The statement loop of Parser::parseIndentedBlock; pStmt is the
recursion into Parser::parseStatement. -/
def parseBlockLoop (pStmt : PSt → PRes Stmt) : Nat → List Stmt → PSt →
    PRes (List Stmt)
  | 0, _, _ => .error parserFuelMsg
  | fuel + 1, acc, p =>
    if !checkT p .Dedent && !isAtEnd p then
      match pStmt p with
      | .error msg => .error msg
      | .ok (s, p) => parseBlockLoop pStmt fuel (acc ++ [s]) (skipNewlinesT p)
    else .ok (acc, p)

/-- Parser::parseIndentedBlock. -/
def parseIndentedBlockT (pStmt : PSt → PRes Stmt) (fuel : Nat)
    (context : String) (p : PSt) : PRes (List Stmt) :=
  match consumeT p .Newline ("Ожидается новая строка после " ++ context) with
  | .error msg => .error msg
  | .ok (_, p) =>
    match consumeT p .Indent ("Ожидается отступ после " ++ context) with
    | .error msg => .error msg
    | .ok (_, p) =>
      match parseBlockLoop pStmt fuel [] (skipNewlinesT p) with
      | .error msg => .error msg
      | .ok (body, p) =>
        match consumeT p .Dedent ("Ожидается завершение блока " ++ context) with
        | .error msg => .error msg
        | .ok (_, p) => .ok (body, p)

/-- The else / else-if loop of Parser::parseIf, accumulating branches in
order. -/
def parseElseChain (pStmt : PSt → PRes Stmt) :
    Nat → List (Expr × List Stmt) → PSt →
    PRes (List (Expr × List Stmt) × List Stmt × Bool)
  | 0, _, _ => .error parserFuelMsg
  | fuel + 1, branches, p =>
    let (m, p₁) := matchT p .KeywordElse
    if m then
      let (mi, p₂) := matchT p₁ .KeywordIf
      if mi then
        match parseParenthesizedCondition fuel "иначе если" p₂ with
        | .error msg => .error msg
        | .ok (condition, p₃) =>
          match parseIndentedBlockT pStmt fuel "условия \x27иначе если\x27" p₃ with
          | .error msg => .error msg
          | .ok (body, p₄) =>
            parseElseChain pStmt fuel (branches ++ [(condition, body)]) p₄
      else
        match parseIndentedBlockT pStmt fuel "блока \x27иначе\x27" p₂ with
        | .error msg => .error msg
        | .ok (elseBody, p₃) => .ok ((branches, elseBody, true), p₃)
    else .ok ((branches, [], false), p₁)

/-- Parser::parseIf. -/
def parseIfT (pStmt : PSt → PRes Stmt) (fuel : Nat) (p : PSt) : PRes Stmt :=
  let (_, p) := advanceT p
  match parseParenthesizedCondition fuel "если" p with
  | .error msg => .error msg
  | .ok (condition, p) =>
    match parseIndentedBlockT pStmt fuel "условия \x27если\x27" p with
    | .error msg => .error msg
    | .ok (ifBody, p) =>
      match parseElseChain pStmt fuel [(condition, ifBody)] p with
      | .error msg => .error msg
      | .ok ((branches, elseBranch, hasElse), p) =>
        .ok (.ifS branches elseBranch hasElse, p)

/-- Parser::parseWhile. -/
def parseWhileT (pStmt : PSt → PRes Stmt) (fuel : Nat) (p : PSt) : PRes Stmt :=
  let (_, p) := advanceT p
  match parseParenthesizedCondition fuel "пока" p with
  | .error msg => .error msg
  | .ok (condition, p) =>
    match parseIndentedBlockT pStmt fuel "цикла \x27пока\x27" p with
    | .error msg => .error msg
    | .ok (body, p) => .ok (.whileS condition body, p)

/-- Parser::parseFor. -/
def parseForT (pStmt : PSt → PRes Stmt) (fuel : Nat) (p : PSt) : PRes Stmt :=
  let (_, p) := advanceT p
  match consumeT p .LeftParen "Ожидается \x27(\x27 после \x27для\x27" with
  | .error msg => .error msg
  | .ok (_, p) =>
    match parseTypeKeywordT p "цикла \x27для\x27" with
    | .error msg => .error msg
    | .ok (type, p) =>
      match consumeT p .Identifier "Ожидается имя счётчика" with
      | .error msg => .error msg
      | .ok (name, p) =>
        match consumeT p .KeywordFrom "Ожидается слово \x27от\x27 в цикле" with
        | .error msg => .error msg
        | .ok (_, p) =>
          match parseExpression fuel p with
          | .error msg => .error msg
          | .ok (fromE, p) =>
            match consumeT p .KeywordTo "Ожидается слово \x27до\x27 в цикле" with
            | .error msg => .error msg
            | .ok (_, p) =>
              match parseExpression fuel p with
              | .error msg => .error msg
              | .ok (toE, p) =>
                match consumeT p .RightParen
                    "Ожидается \x27)\x27 после заголовка цикла" with
                | .error msg => .error msg
                | .ok (_, p) =>
                  match parseIndentedBlockT pStmt fuel "цикла \x27для\x27" p with
                  | .error msg => .error msg
                  | .ok (body, p) =>
                    .ok (.forRange type name.lexeme fromE toE body, p)

/-- Parser::parseStatement, tying the indented-block knot. -/
def parseStatementT : Nat → PSt → PRes Stmt
  | 0, _ => .error parserFuelMsg
  | fuel + 1, p =>
    if checkT p .Indent then .error "Неожиданный отступ"
    else if isTypeKeyword (peekT p).type then parseVarDeclT fuel p
    else
      match (peekT p).type with
      | .KeywordInput => parseInputT p
      | .KeywordOutput => parseOutputT fuel p
      | .KeywordIf => parseIfT (fun p' => parseStatementT fuel p') fuel p
      | .KeywordWhile => parseWhileT (fun p' => parseStatementT fuel p') fuel p
      | .KeywordFor => parseForT (fun p' => parseStatementT fuel p') fuel p
      | .Identifier => parseAssignmentT fuel p
      | _ => .error ("Неожиданное слово \x27" ++ (peekT p).lexeme ++ "\x27")

/-- The top-level loop of Parser::parseProgram. -/
def parseProgramLoop : Nat → List Stmt → PSt → PRes (List Stmt)
  | 0, _, _ => .error parserFuelMsg
  | fuel + 1, acc, p =>
    if isAtEnd p then .ok (acc, p)
    else
      match parseStatementT fuel p with
      | .error msg => .error msg
      | .ok (s, p) => parseProgramLoop fuel (acc ++ [s]) (skipNewlinesT p)

/-- Parser::parseProgram: skip leading newlines, then parse statements up
to EOF.  The fuel dominates the recursion depth of the C++ parser on its
own token stream (between two fuel decrements the parser either consumes a
token or moves one fixed step down the precedence chain, so sixteen units
per token plus a constant head room is enough). -/
def parseProgramT (toks : List Token) : Except String (List Stmt) :=
  match parseProgramLoop (16 * toks.length + 64) [] (skipNewlinesT ⟨toks, 0⟩) with
  | .error msg => .error msg
  | .ok (statements, _) => .ok statements

/-! ## Code generator (codegen.h / codegen.cpp, NameMangler variant) -/

/-- The NameMangler of codegen.cpp: the counter, the scope stack with the
innermost scope at the head (the C++ keeps the innermost scope at the back
of its vector and iterates from the back when resolving), and, as a ghost
observation used only in statements of theorems, the list of every renamed
identifier handed out by declare, newest first. -/
structure Mangler where
  counter : Nat
  scopes : List (List (String × String))
  declared : List String
deriving Repr

/-- The NameMangler constructor: one empty scope, counter zero. -/
def Mangler.init : Mangler := ⟨0, [[]], []⟩

/-- NameMangler::pushScope. -/
def Mangler.pushScope (m : Mangler) : Mangler :=
  { m with scopes := [] :: m.scopes }

/-- NameMangler::popScope: pops only while more than one scope remains. -/
def Mangler.popScope (m : Mangler) : Mangler :=
  if m.scopes.length > 1 then { m with scopes := m.scopes.tail } else m

/-- NameMangler::declare: bump the counter, bind original to the fresh
name in the innermost scope.  The C++ unordered_map assignment overwrites
an earlier binding of the same original; consing the new pair in front
gives every lookup the same answer.  The scopes list of a mangler reached
from Mangler.init is never empty; the empty case mirrors what the C++
would do with no scope only formally. -/
def Mangler.declare (m : Mangler) (original : String) : String × Mangler :=
  let renamed := "vr_" ++ toString (m.counter + 1)
  (renamed,
    { counter := m.counter + 1,
      scopes :=
        match m.scopes with
        | top :: rest => ((original, renamed) :: top) :: rest
        | [] => [[(original, renamed)]],
      declared := renamed :: m.declared })

/-- Lookup of one scope map (std::unordered_map::find). -/
def lookupScope : List (String × String) → String → Option String
  | [], _ => none
  | (key, value) :: rest, original =>
    if key = original then some value else lookupScope rest original

/-- The walk of NameMangler::resolve over the scope stack, innermost
first. -/
def resolveScopes : List (List (String × String)) → String → String
  | [], original => original
  | scope :: rest, original =>
    match lookupScope scope original with
    | some renamed => renamed
    | none => resolveScopes rest original

/-- NameMangler::resolve. -/
def Mangler.resolve (m : Mangler) (original : String) : String :=
  resolveScopes m.scopes original

/-- The indent helper of codegen.cpp: four spaces per level. -/
def indentStr (level : Nat) : String := String.mk (List.replicate (level * 4) ' ')

/-- cppType from codegen.cpp. -/
def cppType : ValueType → String
  | .Integer => "int"
  | .Double => "double"
  | .StringT => "std::string"
  | .Boolean => "bool"
  | .Unknown => "auto"

/-- One character of escapeString from codegen.cpp. -/
def escapeChar (c : Char) : List Char :=
  if c = '\\' then ['\\', '\\']
  else if c = '"' then ['\\', '"']
  else if c = '\n' then ['\\', 'n']
  else if c = '\t' then ['\\', 't']
  else [c]

/-- escapeString from codegen.cpp, on character lists. -/
def escapeStringL : List Char → List Char
  | [] => []
  | c :: rest => escapeChar c ++ escapeStringL rest

/-- escapeString from codegen.cpp. -/
def escapeString (value : String) : String := String.mk (escapeStringL value.data)

/-- emitExpression from codegen.cpp (the null-pointer guard of the C++,
which prints 0 for a missing expression, has no counterpart: the AST here
has no null expressions). -/
def emitExpression : Expr → Mangler → String
  | .literal type text boolValue, _ =>
    match type with
    | .Integer => text
    | .Double => text
    | .StringT => "\"" ++ escapeString text ++ "\""
    | .Boolean => if boolValue then "true" else "false"
    | .Unknown => text
  | .var name, m => m.resolve name
  | .unary op operand, m => op ++ "(" ++ emitExpression operand m ++ ")"
  | .binary op left right, m =>
    if op = "^" then
      "std::pow(" ++ emitExpression left m ++ ", " ++ emitExpression right m ++ ")"
    else
      "(" ++ emitExpression left m ++ " " ++ op ++ " " ++ emitExpression right m ++ ")"

mutual

/-- emitStatement from codegen.cpp.  Each case appends what the C++
streams into out and threads the mangler through in the C++ evaluation
order. -/
def emitStatement : Stmt → Nat → Mangler → String × Mangler
  | .varDecl type name initializer, level, m =>
    let (cppName, md) := m.declare name
    (indentStr level ++ cppType type ++ " " ++ cppName ++
      (match initializer with
       | some e => " = " ++ emitExpression e md
       | none => "\x7b\x7d") ++ ";\n", md)
  | .assign name value, level, m =>
    (indentStr level ++ m.resolve name ++ " = " ++ emitExpression value m
      ++ ";\n", m)
  | .inputT name, level, m =>
    (indentStr level ++ "std::cin >> " ++ m.resolve name ++ ";\n", m)
  | .outputT value, level, m =>
    (indentStr level ++ "std::cout << " ++ emitExpression value m
      ++ " << std::endl;\n", m)
  | .ifS branches elseBranch hasElse, level, m =>
    let (bt, mb) := emitIfBranches branches level true m
    if hasElse then
      let (et, me) := emitStatements elseBranch (level + 1) true mb
      (bt ++ indentStr level ++ "else \x7b\n" ++ et
        ++ indentStr level ++ "\x7d\n", me)
    else (bt, mb)
  | .whileS condition body, level, m =>
    let header := indentStr level ++ "while (" ++ emitExpression condition m
      ++ ") \x7b\n"
    let (bt, mb) := emitStatements body (level + 1) true m
    (header ++ bt ++ indentStr level ++ "\x7d\n", mb)
  | .forRange type name fromE toE body, level, m =>
    let m₁ := m.pushScope
    let (loopName, m₂) := m₁.declare name
    let header := indentStr level ++ "for (" ++ cppType type ++ " " ++ loopName
      ++ " = " ++ emitExpression fromE m₂ ++ "; " ++ loopName ++ " <= "
      ++ emitExpression toE m₂ ++ "; ++" ++ loopName ++ ") \x7b\n"
    let (bt, m₃) := emitStatements body (level + 1) true m₂
    (header ++ bt ++ indentStr level ++ "\x7d\n", m₃.popScope)
termination_by s _ _ => (sizeOf s, 0)

/-- The branch loop inside the If case of emitStatement: the first branch
prints if, the following ones else if; each body is a fresh scope. -/
def emitIfBranches : List (Expr × List Stmt) → Nat → Bool → Mangler →
    String × Mangler
  | [], _, _, m => ("", m)
  | (condition, body) :: rest, level, first, m =>
    let header := indentStr level ++ (if first then "if" else "else if")
      ++ " (" ++ emitExpression condition m ++ ") \x7b\n"
    let (bt, m₁) := emitStatements body (level + 1) true m
    let closed := header ++ bt ++ indentStr level ++ "\x7d\n"
    let (rt, m₂) := emitIfBranches rest level false m₁
    (closed ++ rt, m₂)
termination_by bs _ _ _ => (sizeOf bs, 0)

/-- emitStatements from codegen.cpp: optionally enter a fresh scope, walk
the statements, optionally leave the scope. -/
def emitStatements : List Stmt → Nat → Bool → Mangler → String × Mangler
  | statements, level, createNewScope, m =>
    let m₀ := if createNewScope then m.pushScope else m
    let (txt, m₁) := emitStmtList statements level m₀
    (txt, if createNewScope then m₁.popScope else m₁)
termination_by l _ _ _ => (sizeOf l, 1)

/-- The for loop inside emitStatements. -/
def emitStmtList : List Stmt → Nat → Mangler → String × Mangler
  | [], _, m => ("", m)
  | s :: rest, level, m =>
    let (txt₁, m₁) := emitStatement s level m
    let (txt₂, m₂) := emitStmtList rest level m₁
    (txt₁ ++ txt₂, m₂)
termination_by l _ _ => (sizeOf l, 0)

end

/-- CodeGenerator::generate together with the final state of its local
NameMangler; the C++ returns only the string. -/
def generateWithMangler (program : List Stmt) : String × Mangler :=
  let (body, m) := emitStatements program 1 false Mangler.init
  ("#include <cmath>\n#include <iostream>\n#include <string>\n\nint main() \x7b\n"
    ++ indentStr 1 ++ "std::ios_base::sync_with_stdio(false);\n"
    ++ body
    ++ indentStr 1 ++ "return 0;\n\x7d\n", m)

/-- CodeGenerator::generate. -/
def generate (program : List Stmt) : String := (generateWithMangler program).1

/-! ## The pipeline -/

/-- The two failure classes of the pipeline: a LexerError thrown by
Lexer::tokenize or a ParserError thrown by Parser::parseProgram.  Both C++
exception classes derive from std::runtime_error and carry exactly the
message string. -/
inductive TransError where
  | lex (message : String)
  | parse (message : String)
deriving DecidableEq, Repr

/-- The translation pipeline as driven by the application: tokenize, parse,
generate. -/
def translate (source : String) : Except TransError String :=
  match tokenize source.data with
  | .error msg => .error (.lex msg)
  | .ok toks =>
    match parseProgramT toks with
    | .error msg => .error (.parse msg)
    | .ok program => .ok (generate program)

/-! ## Helpers for the statements of the verified properties -/

/-- Whether the first list is an initial segment of the second. -/
def leadsWith : List Char → List Char → Bool
  | [], _ => true
  | _ :: _, [] => false
  | a :: as, b :: bs => a = b && leadsWith as bs

/-- Whether the first list occurs contiguously inside the second. -/
def occursIn (needle : List Char) : List Char → Bool
  | [] => leadsWith needle []
  | c :: rest => leadsWith needle (c :: rest) || occursIn needle rest

/-- The number of tokens of one kind in a stream. -/
def countTok (ty : TokenType) (ts : List Token) : Nat :=
  ts.countP (fun t => decide (t.type = ty))

/-- The mangled name NameMangler::declare builds for counter value i. -/
def vrName (i : Nat) : String := "vr_" ++ toString i

/-- The decimal digits of a natural number, most significant first; the
reference rendering against which the fuel-driven Nat.toDigitsCore of the
standard library is proved equal. -/
def natDigits (n : Nat) : List Char :=
  if _h : n < 10 then [Nat.digitChar n]
  else natDigits (n / 10) ++ [Nat.digitChar (n % 10)]
decreasing_by exact Nat.div_lt_self (by omega) (by omega)

/-- Decimal decoding of a digit string, inverse to natDigits. -/
def digitsVal (l : List Char) : Nat :=
  l.foldl (fun acc c => acc * 10 + (c.toNat - 48)) 0

/-- The escape decoding table of the scanString loop: the four recognised
escapes, or none for an illegal escape. -/
def escDecode (e : Char) : Option Char :=
  if e = '\\' then some '\\'
  else if e = '"' then some '"'
  else if e = 'n' then some '\n'
  else if e = 't' then some '\t'
  else none

/-- The well-formedness invariant of the mangler ghost state: the declared
names are exactly the mangled names of the counter values handed out so
far, newest first, and in particular they are pairwise distinct. -/
def ManglerDeclaredInv (m : Mangler) : Prop :=
  m.declared.Nodup ∧ ∀ x ∈ m.declared, ∃ i, 1 ≤ i ∧ i ≤ m.counter ∧ x = vrName i

/-- Tail-and-length preservation of the scope stack across one emission
step: the outer scopes are untouched and the stack depth is restored. -/
def ScTL (a b : Mangler) : Prop :=
  a.scopes.tail = b.scopes.tail ∧ a.scopes.length = b.scopes.length

/-- The mangler evolution relation of one emission step: the counter never
decreases and the ghost ledger invariant is preserved. -/
def CtrInv (a b : Mangler) : Prop :=
  b.counter ≤ a.counter ∧ (ManglerDeclaredInv b → ManglerDeclaredInv a)

/-! ## Verified properties -/

/-- Claim C9: for the empty source string, translation succeeds and generate
returns exactly the fixed frame: the three includes, int main() with the
sync_with_stdio line indented four spaces, no statement lines, return 0
indented four spaces, and the closing brace. -/
theorem C9_empty_program_frame :
    translate "" = .ok ("#include <cmath>\n#include <iostream>\n#include <string>\n\nint main() \x7b\n    std::ios_base::sync_with_stdio(false);\n    return 0;\n\x7d\n") := by
  have h1 : tokenize "".data = .ok [⟨.EndOfFile, "", 1, 1⟩] := rfl
  have h2 : parseProgramT [⟨.EndOfFile, "", 1, 1⟩] = .ok [] := rfl
  unfold translate
  simp only [h1, h2]
  simp [generate, generateWithMangler, emitStatements, emitStmtList, Mangler.init, indentStr]

/-- Claim C1, counterexample to the concrete scenario as stated: on the
exact input of the claim, which has no trailing newline, the parser rejects
the declaration (Parser::check of EndOfFile is identically false, so
expectNewline does not accept the end of the stream), and no initializer is
emitted at all. -/
theorem C1_counterexample_input_rejected :
    translate "целое x = 2 ^ 3 ^ 2" =
      .error (.parse "Ожидается перевод строки после объявления переменной") := by
  rfl

/-- Claim C1, amended: exponentiation is right-associative end to end.  The
parser turns a caret chain over three operands into a right-nested Binary
tree; the code generator emits std::pow with the right operand nested; and
on the concrete input, completed by the trailing newline the statement
terminator requires, the emitted initializer is exactly
std::pow(2, std::pow(3, 2)). -/
theorem C1_power_right_assoc :
    (∀ (a b c : String) (la ca lb cb lc cc ld cd le ce lf cf : Nat),
      parseExpression 64 ⟨[⟨.Identifier, a, la, ca⟩, ⟨.Caret, "", lb, cb⟩,
          ⟨.Identifier, b, lc, cc⟩, ⟨.Caret, "", ld, cd⟩,
          ⟨.Identifier, c, le, ce⟩, ⟨.Newline, "", lf, cf⟩], 0⟩ =
        .ok (.binary "^" (.var a) (.binary "^" (.var b) (.var c)),
          ⟨[⟨.Identifier, a, la, ca⟩, ⟨.Caret, "", lb, cb⟩,
            ⟨.Identifier, b, lc, cc⟩, ⟨.Caret, "", ld, cd⟩,
            ⟨.Identifier, c, le, ce⟩, ⟨.Newline, "", lf, cf⟩], 5⟩))
    ∧ (∀ (ea eb ec : Expr) (m : Mangler),
        emitExpression (.binary "^" ea (.binary "^" eb ec)) m =
          "std::pow(" ++ emitExpression ea m ++ ", std::pow("
            ++ emitExpression eb m ++ ", " ++ emitExpression ec m ++ "))")
    ∧ translate "целое x = 2 ^ 3 ^ 2\n" =
        .ok ("#include <cmath>\n#include <iostream>\n#include <string>\n\nint main() \x7b\n    std::ios_base::sync_with_stdio(false);\n    int vr_1 = std::pow(2, std::pow(3, 2));\n    return 0;\n\x7d\n") := by
  refine ⟨fun a b c la ca lb cb lc cc ld cd le ce lf cf => rfl, fun ea eb ec m => ?_, ?_⟩
  · have hm : ∀ x : String, ", " ++ ("std::pow(" ++ x) = ", std::pow(" ++ x := by
      intro x
      rw [← String.append_assoc]
      rfl
    simp [emitExpression, String.append_assoc, hm]
  · have h1 : tokenize "целое x = 2 ^ 3 ^ 2\n".data =
        .ok [⟨.KeywordInteger, "целое", 1, 1⟩, ⟨.Identifier, "x", 1, 7⟩,
             ⟨.Assign, "", 1, 9⟩, ⟨.IntegerLiteral, "2", 1, 11⟩,
             ⟨.Caret, "", 1, 13⟩, ⟨.IntegerLiteral, "3", 1, 15⟩,
             ⟨.Caret, "", 1, 17⟩, ⟨.IntegerLiteral, "2", 1, 19⟩,
             ⟨.Newline, "", 1, 20⟩, ⟨.EndOfFile, "", 2, 1⟩] := rfl
    have h2 : parseProgramT [⟨.KeywordInteger, "целое", 1, 1⟩, ⟨.Identifier, "x", 1, 7⟩,
             ⟨.Assign, "", 1, 9⟩, ⟨.IntegerLiteral, "2", 1, 11⟩,
             ⟨.Caret, "", 1, 13⟩, ⟨.IntegerLiteral, "3", 1, 15⟩,
             ⟨.Caret, "", 1, 17⟩, ⟨.IntegerLiteral, "2", 1, 19⟩,
             ⟨.Newline, "", 1, 20⟩, ⟨.EndOfFile, "", 2, 1⟩] =
        .ok [.varDecl .Integer "x" (some (.binary "^" (.literal .Integer "2" false)
          (.binary "^" (.literal .Integer "3" false) (.literal .Integer "2" false))))] := rfl
    unfold translate
    simp only [h1, h2]
    simp [generate, generateWithMangler, emitStatements, emitStmtList, emitStatement,
          Mangler.init, Mangler.declare, emitExpression, indentStr, cppType]
    rfl

/-- Claim C6, counterexample: the single line целое i от 0 до 2 is indeed
rejected by the parser, but the error message is the statement-terminator
message of the variable declaration and does not mention для. -/
theorem C6_counterexample_message :
    translate "целое i от 0 до 2" =
      .error (.parse "Ожидается перевод строки после объявления переменной")
    ∧ occursIn "для".data
        "Ожидается перевод строки после объявления переменной".data = false := by
  exact ⟨rfl, by decide⟩

/-- Claim C6, amended: the input целое i от 0 до 2 is rejected by the
parser; the declaration parser accepts целое i, finds от where it requires
the statement terminator, and fails with the terminator message for the
variable declaration (which mentions the declaration, not для). -/
theorem C6_header_rejected :
    translate "целое i от 0 до 2" =
      .error (.parse "Ожидается перевод строки после объявления переменной") := by
  rfl

/-- Claim C5: the block rule requires one NEWLINE and one INDENT; any
stream that does not present this pair at the block position makes
parseIndentedBlock fail with one of its two consume messages, and a header
of если, пока or для whose body is empty is rejected end to end with a
ParseError. -/
theorem C5_empty_block_rejected :
    (∀ (pStmt : PSt → PRes Stmt) (fuel : Nat) (context : String) (p : PSt),
      ¬(checkT p .Newline = true ∧ checkT (advanceT p).2 .Indent = true) →
      ∃ msg, parseIndentedBlockT pStmt fuel context p = .error msg ∧
        (msg = "Ожидается новая строка после " ++ context ∨
         msg = "Ожидается отступ после " ++ context))
    ∧ translate "пока (правда)\nвывод 1" =
        .error (.parse "Ожидается отступ после цикла \x27пока\x27")
    ∧ translate "если (правда)\nвывод 1" =
        .error (.parse "Ожидается отступ после условия \x27если\x27")
    ∧ translate "для (целое i от 1 до 2)" =
        .error (.parse "Ожидается новая строка после цикла \x27для\x27") := by
  refine ⟨?_, rfl, rfl, rfl⟩
  intro pStmt fuel context p h
  cases hn : checkT p .Newline with
  | false =>
    exact ⟨_, by simp [parseIndentedBlockT, consumeT, hn], Or.inl rfl⟩
  | true =>
    have hi : checkT (advanceT p).2 .Indent = false := by
      cases hh : checkT (advanceT p).2 .Indent
      · rfl
      · exact absurd ⟨hn, hh⟩ h
    exact ⟨_, by simp [parseIndentedBlockT, consumeT, hn, hi], Or.inr rfl⟩

/-- Claim C5, witness: a stream whose block position holds a NEWLINE
followed directly by EOF. -/
theorem C5_empty_block_rejected_witness :
    ∃ msg, parseIndentedBlockT (fun _ => .error "") 5 "условия \x27если\x27"
        ⟨[⟨.Newline, "", 1, 1⟩, ⟨.EndOfFile, "", 1, 2⟩], 0⟩ = .error msg ∧
      (msg = "Ожидается новая строка после " ++ "условия \x27если\x27" ∨
       msg = "Ожидается отступ после " ++ "условия \x27если\x27") :=
  C5_empty_block_rejected.1 (fun _ => .error "") 5 "условия \x27если\x27"
    ⟨[⟨.Newline, "", 1, 1⟩, ⟨.EndOfFile, "", 1, 2⟩], 0⟩ (by decide)

/-- The pop loop of handleIndentation pops exactly the stack levels above
the measured indent and emits exactly one DEDENT per popped level. -/
theorem dedentPop_spec (spaces line : Nat) :
    ∀ (stack : List Nat) (toks : List Token),
      (dedentPop spaces line stack toks).1 =
        stack.dropWhile (fun t => decide (spaces < t)) ∧
      (dedentPop spaces line stack toks).2 =
        List.replicate (stack.takeWhile (fun t => decide (spaces < t))).length
          (dedentTok line) ++ toks := by
  intro stack
  induction stack with
  | nil => intro toks; simp [dedentPop]
  | cons t rest ih =>
    intro toks
    by_cases hlt : spaces < t
    · have h₁ := (ih (dedentTok line :: toks)).1
      have h₂ := (ih (dedentTok line :: toks)).2
      constructor
      · simpa [dedentPop, hlt, List.dropWhile_cons] using h₁
      · rw [show (dedentPop spaces line (t :: rest) toks).2 =
              (dedentPop spaces line rest (dedentTok line :: toks)).2 by
            simp [dedentPop, hlt]]
        rw [h₂]
        simp [List.takeWhile_cons, hlt, List.replicate_succ']
    · constructor
      · simp [dedentPop, hlt, List.dropWhile_cons]
      · simp [dedentPop, hlt, List.takeWhile_cons]

/-- Claim C4: when the measured indent is below the top of the indent stack
and, after popping every level above it, does not equal the new top,
handleIndentation fails with the inconsistent-indent message for the
current line, having emitted exactly one DEDENT per popped level; and the
concrete source with lines indented 0, 4 and 2 fails at line 3 with that
message. -/
theorem C4_inconsistent_dedent :
    (∀ (spaces line : Nat) (stack : List Nat) (toks : List Token),
      spaces < stack.headD 0 →
      spaces ≠ (dedentPop spaces line stack toks).1.headD 0 →
      handleIndentation spaces line stack toks =
        .error ("Несогласованный отступ на строке " ++ toString line) ∧
      (dedentPop spaces line stack toks).2 =
        List.replicate (stack.takeWhile (fun t => decide (spaces < t))).length
          (dedentTok line) ++ toks)
    ∧ tokenize "a\n    b\n  c".data =
        .error ("Несогласованный отступ на строке " ++ toString 3) := by
  refine ⟨?_, rfl⟩
  intro spaces line stack toks hlt hne
  refine ⟨?_, (dedentPop_spec spaces line stack toks).2⟩
  have hgt : ¬ spaces > stack.headD 0 := by omega
  simp only [handleIndentation]
  rw [if_neg hgt, if_pos hne]

/-- Claim C4, witness: dedent to width 2 against the stack [4, 0]. -/
theorem C4_inconsistent_dedent_witness :
    2 < ([4, 0] : List Nat).headD 0 ∧
    handleIndentation 2 3 [4, 0] [] =
      .error ("Несогласованный отступ на строке " ++ toString 3) :=
  ⟨by decide, (C4_inconsistent_dedent.1 2 3 [4, 0] [] (by decide) (by decide)).1⟩

/-- Claim C7, counterexample: the unterminated string literal fails with a
message that contains no digit at all, so the failure does not carry the
line and the column of the failure (the LexerError class of the C++ stores
nothing but the message). -/
theorem C7_counterexample_no_position :
    tokenize "\"abc".data = .error "Незакрытая строка"
    ∧ "Незакрытая строка".data.all (fun c => !c.isDigit) = true :=
  ⟨rfl, by decide⟩

/-- Claim C7, amended: every lexer failure is a LexerError carrying only a
message and no partial token stream; the position appears only inside the
text, namely line and column for an illegal character, the line alone for
an inconsistent dedent, and nothing for an unterminated string. -/
theorem C7_failures_message_only :
    tokenize "@".data = .error "Неизвестный символ \x27@\x27 на строке 1:1"
    ∧ tokenize "\"abc".data = .error "Незакрытая строка"
    ∧ tokenize "x\n\ty\n  z".data = .error "Несогласованный отступ на строке 3" :=
  ⟨rfl, rfl, rfl⟩

/-! ### Lemmas for the escaping round trip (scanString against escapeString) -/

theorem scanStringBody_nil :
    scanStringBody [] = .error "Незакрытая строка" := by
  rw [scanStringBody.eq_def]

theorem scanStringBody_newline (rest : List Char) :
    scanStringBody ('\n' :: rest) =
      .error "Строковый литерал не может переноситься на новую строку" := by
  rw [scanStringBody.eq_def]
  simp

theorem scanStringBody_quote (rest : List Char) :
    scanStringBody ('"' :: rest) = .ok ([], rest) := by
  rw [scanStringBody.eq_def]
  simp

theorem scanStringBody_esc_end :
    scanStringBody ['\\'] = .error "Незавершённая escape-последовательность" := by
  rw [scanStringBody.eq_def]
  simp

theorem scanStringBody_esc_backslash (rest : List Char) :
    scanStringBody ('\\' :: '\\' :: rest) =
      match scanStringBody rest with
      | .error m => .error m
      | .ok (p, r) => .ok ('\\' :: p, r) := by
  rw [scanStringBody.eq_def]
  simp

theorem scanStringBody_esc_quote (rest : List Char) :
    scanStringBody ('\\' :: '"' :: rest) =
      match scanStringBody rest with
      | .error m => .error m
      | .ok (p, r) => .ok ('"' :: p, r) := by
  rw [scanStringBody.eq_def]
  simp

theorem scanStringBody_esc_n (rest : List Char) :
    scanStringBody ('\\' :: 'n' :: rest) =
      match scanStringBody rest with
      | .error m => .error m
      | .ok (p, r) => .ok ('\n' :: p, r) := by
  rw [scanStringBody.eq_def]
  simp

theorem scanStringBody_esc_t (rest : List Char) :
    scanStringBody ('\\' :: 't' :: rest) =
      match scanStringBody rest with
      | .error m => .error m
      | .ok (p, r) => .ok ('\t' :: p, r) := by
  rw [scanStringBody.eq_def]
  simp

theorem scanStringBody_esc_bad (e : Char) (rest : List Char)
    (h1 : e ≠ '\\') (h2 : e ≠ '"') (h3 : e ≠ 'n') (h4 : e ≠ 't') :
    scanStringBody ('\\' :: e :: rest) =
      .error "Неизвестная escape-последовательность" := by
  rw [scanStringBody.eq_def]
  simp [h1, h2, h3, h4]

theorem scanStringBody_plain (c : Char) (rest : List Char)
    (h1 : c ≠ '\n') (h2 : c ≠ '"') (h3 : c ≠ '\\') :
    scanStringBody (c :: rest) =
      match scanStringBody rest with
      | .error m => .error m
      | .ok (p, r) => .ok (c :: p, r) := by
  rw [scanStringBody.eq_def]
  simp [h1, h2, h3]

theorem scanStringBody_esc (e d : Char) (rest : List Char)
    (hd : escDecode e = some d) :
    scanStringBody ('\\' :: e :: rest) =
      match scanStringBody rest with
      | .error m => .error m
      | .ok (p, r) => .ok (d :: p, r) := by
  by_cases he1 : e = '\\'
  · subst he1
    simp [escDecode] at hd
    subst hd
    exact scanStringBody_esc_backslash rest
  · by_cases he2 : e = '"'
    · subst he2
      simp [escDecode] at hd
      subst hd
      exact scanStringBody_esc_quote rest
    · by_cases he3 : e = 'n'
      · subst he3
        simp [escDecode] at hd
        subst hd
        exact scanStringBody_esc_n rest
      · by_cases he4 : e = 't'
        · subst he4
          simp [escDecode] at hd
          subst hd
          exact scanStringBody_esc_t rest
        · simp [escDecode, he1, he2, he3, he4] at hd

theorem scanStringBody_esc_none (e : Char) (rest : List Char)
    (hd : escDecode e = none) :
    scanStringBody ('\\' :: e :: rest) =
      .error "Неизвестная escape-последовательность" := by
  have he1 : e ≠ '\\' := fun hc => by subst hc; simp [escDecode] at hd
  have he2 : e ≠ '"' := fun hc => by subst hc; simp [escDecode] at hd
  have he3 : e ≠ 'n' := fun hc => by subst hc; simp [escDecode] at hd
  have he4 : e ≠ 't' := fun hc => by subst hc; simp [escDecode] at hd
  exact scanStringBody_esc_bad e rest he1 he2 he3 he4

theorem escapeChar_escDecode (e d : Char) (hd : escDecode e = some d) :
    escapeChar d = ['\\', e] := by
  by_cases he1 : e = '\\'
  · subst he1
    simp [escDecode] at hd
    subst hd
    rfl
  · by_cases he2 : e = '"'
    · subst he2
      simp [escDecode] at hd
      subst hd
      rfl
    · by_cases he3 : e = 'n'
      · subst he3
        simp [escDecode] at hd
        subst hd
        rfl
      · by_cases he4 : e = 't'
        · subst he4
          simp [escDecode] at hd
          subst hd
          rfl
        · simp [escDecode, he1, he2, he3, he4] at hd

theorem scanStringBody_shrink_aux :
    ∀ (n : Nat) (src payload rest : List Char), src.length ≤ n →
      scanStringBody src = .ok (payload, rest) → rest.length < src.length := by
  intro n
  induction n with
  | zero =>
    intro src payload rest hlen h
    cases src with
    | nil => rw [scanStringBody_nil] at h; exact absurd h (by simp)
    | cons c cs => simp at hlen
  | succ n ih =>
    intro src payload rest hlen h
    cases src with
    | nil => rw [scanStringBody_nil] at h; exact absurd h (by simp)
    | cons c cs =>
      by_cases h1 : c = '\n'
      · subst h1
        rw [scanStringBody_newline] at h
        exact absurd h (by simp)
      · by_cases h2 : c = '"'
        · subst h2
          rw [scanStringBody_quote] at h
          simp only [Except.ok.injEq, Prod.mk.injEq] at h
          obtain ⟨-, h4⟩ := h
          subst h4
          simp
        · by_cases h3 : c = '\\'
          · subst h3
            cases cs with
            | nil => rw [scanStringBody_esc_end] at h; exact absurd h (by simp)
            | cons e cs₂ =>
              cases hd : escDecode e with
              | none =>
                rw [scanStringBody_esc_none e cs₂ hd] at h
                exact absurd h (by simp)
              | some d =>
                rw [scanStringBody_esc e d cs₂ hd] at h
                cases hs : scanStringBody cs₂ with
                | error m => rw [hs] at h; exact absurd h (by simp)
                | ok pr =>
                  obtain ⟨p', r'⟩ := pr
                  rw [hs] at h
                  simp only [Except.ok.injEq, Prod.mk.injEq] at h
                  obtain ⟨-, h4⟩ := h
                  subst h4
                  have := ih cs₂ p' r' (by simp at hlen ⊢; omega) hs
                  simp at this ⊢
                  omega
          · rw [scanStringBody_plain c cs h1 h2 h3] at h
            cases hs : scanStringBody cs with
            | error m => rw [hs] at h; exact absurd h (by simp)
            | ok pr =>
              obtain ⟨p', r'⟩ := pr
              rw [hs] at h
              simp only [Except.ok.injEq, Prod.mk.injEq] at h
              obtain ⟨-, h4⟩ := h
              subst h4
              have := ih cs p' r' (by simp at hlen ⊢; omega) hs
              simp at this ⊢
              omega

theorem scanStringBody_shrink (src payload rest : List Char)
    (h : scanStringBody src = .ok (payload, rest)) : rest.length < src.length :=
  scanStringBody_shrink_aux src.length src payload rest le_rfl h

theorem escape_roundtrip_aux :
    ∀ (n : Nat) (body payload rest : List Char), body.length ≤ n →
      scanStringBody (body ++ '"' :: rest) = .ok (payload, rest) →
      '\t' ∉ body →
      escapeStringL payload = body := by
  intro n
  induction n with
  | zero =>
    intro body payload rest hlen h htab
    cases body with
    | cons c bs => simp at hlen
    | nil =>
      rw [List.nil_append, scanStringBody_quote] at h
      simp only [Except.ok.injEq, Prod.mk.injEq] at h
      obtain ⟨h3, -⟩ := h
      rw [← h3]
      rfl
  | succ n ih =>
    intro body payload rest hlen h htab
    cases body with
    | nil =>
      rw [List.nil_append, scanStringBody_quote] at h
      simp only [Except.ok.injEq, Prod.mk.injEq] at h
      obtain ⟨h3, -⟩ := h
      rw [← h3]
      rfl
    | cons c bs =>
      rw [List.cons_append] at h
      by_cases h1 : c = '\n'
      · subst h1
        rw [scanStringBody_newline] at h
        exact absurd h (by simp)
      · by_cases h2 : c = '"'
        · subst h2
          rw [scanStringBody_quote] at h
          simp only [Except.ok.injEq, Prod.mk.injEq] at h
          obtain ⟨-, h4⟩ := h
          have := congrArg List.length h4
          simp at this
          omega
        · by_cases h3 : c = '\\'
          · subst h3
            cases bs with
            | nil =>
              rw [List.nil_append] at h
              rw [show ('"' :: rest : List Char) = '"' :: rest from rfl] at h
              rw [scanStringBody_esc '"' '"' rest (by simp [escDecode])] at h
              cases hs : scanStringBody rest with
              | error m => rw [hs] at h; exact absurd h (by simp)
              | ok pr =>
                obtain ⟨p', r'⟩ := pr
                rw [hs] at h
                simp only [Except.ok.injEq, Prod.mk.injEq] at h
                obtain ⟨-, h4⟩ := h
                subst h4
                exact absurd (scanStringBody_shrink r' p' r' hs) (by omega)
            | cons e bs₂ =>
              rw [List.cons_append] at h
              have htab₂ : '\t' ∉ bs₂ := fun hm => htab (by simp [hm])
              have hlen₂ : bs₂.length ≤ n := by simp at hlen; omega
              cases hd : escDecode e with
              | none =>
                rw [scanStringBody_esc_none e (bs₂ ++ '"' :: rest) hd] at h
                exact absurd h (by simp)
              | some d =>
                rw [scanStringBody_esc e d (bs₂ ++ '"' :: rest) hd] at h
                cases hs : scanStringBody (bs₂ ++ '"' :: rest) with
                | error m => rw [hs] at h; exact absurd h (by simp)
                | ok pr =>
                  obtain ⟨p', r'⟩ := pr
                  rw [hs] at h
                  simp only [Except.ok.injEq, Prod.mk.injEq] at h
                  obtain ⟨h5, h4⟩ := h
                  subst h4
                  rw [← h5]
                  have hbs := ih bs₂ p' r' hlen₂ hs htab₂
                  have hec := escapeChar_escDecode e d hd
                  simp [escapeStringL, hec, hbs]
          · rw [scanStringBody_plain c (bs ++ '"' :: rest) h1 h2 h3] at h
            cases hs : scanStringBody (bs ++ '"' :: rest) with
            | error m => rw [hs] at h; exact absurd h (by simp)
            | ok pr =>
              obtain ⟨p', r'⟩ := pr
              rw [hs] at h
              simp only [Except.ok.injEq, Prod.mk.injEq] at h
              obtain ⟨h5, h4⟩ := h
              subst h4
              rw [← h5]
              have htab₂ : '\t' ∉ bs := fun hm => htab (by simp [hm])
              have hct : c ≠ '\t' := fun hc => htab (by simp [hc])
              have hbs := ih bs p' r' (by simp at hlen; omega) hs htab₂
              simp [escapeStringL, escapeChar, h1, h2, h3, hct, hbs]

/-- Claim C8, counterexample: a raw tab character is accepted inside a
string literal and decoded verbatim, but the re-escaping of the code
generator renders it as a backslash-t pair, so re-escaping the decoded
payload does not reproduce the bytes between the quotes. -/
theorem C8_counterexample_raw_tab :
    scanStringBody ['\t', '"'] = .ok (['\t'], [])
    ∧ escapeStringL ['\t'] ≠ ['\t'] :=
  ⟨rfl, by decide⟩

/-- Claim C8, amended: for every string-literal body the lexer accepts
that contains no raw tab character, applying the re-escaping of the code
generator to the decoded payload reproduces exactly the characters that
appeared between the quotes in the source. -/
theorem C8_escape_roundtrip (body payload rest : List Char)
    (h : scanStringBody (body ++ '"' :: rest) = .ok (payload, rest))
    (htab : '\t' ∉ body) :
    escapeStringL payload = body :=
  escape_roundtrip_aux body.length body payload rest le_rfl h htab

/-- Claim C8, witness: the body a backslash n decodes to a newline and
re-escapes to the original three characters. -/
theorem C8_escape_roundtrip_witness :
    scanStringBody (['a', '\\', 'n'] ++ '"' :: []) = .ok (['a', '\n'], [])
    ∧ escapeStringL ['a', '\n'] = ['a', '\\', 'n'] :=
  ⟨rfl, C8_escape_roundtrip ['a', '\\', 'n'] ['a', '\n'] [] rfl (by decide)⟩

/-! ### Lemmas for the INDENT/DEDENT balance of the token stream -/

theorem countTok_cons_other (ty : TokenType) (t : Token) (toks : List Token)
    (hne : t.type ≠ ty) : countTok ty (t :: toks) = countTok ty toks := by
  simp [countTok, List.countP_cons, hne]

theorem countTok_cons_self (ty : TokenType) (t : Token) (toks : List Token)
    (heq : t.type = ty) : countTok ty (t :: toks) = countTok ty toks + 1 := by
  simp [countTok, List.countP_cons, heq]

theorem dedentPop_balance (spaces line : Nat) :
    ∀ (stack : List Nat) (toks : List Token),
      countTok .Dedent (dedentPop spaces line stack toks).2 +
          (dedentPop spaces line stack toks).1.length
        = countTok .Dedent toks + stack.length ∧
      countTok .Indent (dedentPop spaces line stack toks).2 = countTok .Indent toks ∧
      (0 ∈ stack → 0 ∈ (dedentPop spaces line stack toks).1) := by
  intro stack
  induction stack with
  | nil => intro toks; simp [dedentPop]
  | cons t rest ih =>
    intro toks
    by_cases hlt : spaces < t
    · have h := ih (dedentTok line :: toks)
      rw [show dedentPop spaces line (t :: rest) toks
            = dedentPop spaces line rest (dedentTok line :: toks) by
          simp [dedentPop, hlt]]
      refine ⟨?_, ?_, ?_⟩
      · rw [h.1, countTok_cons_self .Dedent (dedentTok line) toks rfl]
        simp
        omega
      · rw [h.2.1, countTok_cons_other .Indent (dedentTok line) toks (by simp [dedentTok])]
      · intro hm
        apply h.2.2
        rcases List.mem_cons.mp hm with hm | hm
        · omega
        · exact hm
    · rw [show dedentPop spaces line (t :: rest) toks = (t :: rest, toks) by
          simp [dedentPop, hlt]]
      simp

theorem handleIndentation_balance (spaces line : Nat) (stack stack' : List Nat)
    (toks toks' : List Token)
    (h : handleIndentation spaces line stack toks = .ok (stack', toks'))
    (h0 : 0 ∈ stack)
    (hbal : countTok .Indent toks + 1 = countTok .Dedent toks + stack.length) :
    0 ∈ stack' ∧
    countTok .Indent toks' + 1 = countTok .Dedent toks' + stack'.length := by
  unfold handleIndentation at h
  by_cases hgt : spaces > stack.headD 0
  · rw [if_pos hgt] at h
    simp only [Except.ok.injEq, Prod.mk.injEq] at h
    obtain ⟨h1, h2⟩ := h
    subst h1
    subst h2
    constructor
    · simp [h0]
    · rw [countTok_cons_self .Indent (indentTok line) toks rfl,
          countTok_cons_other .Dedent (indentTok line) toks (by simp [indentTok])]
      simp
      omega
  · rw [if_neg hgt] at h
    by_cases hne : spaces ≠ (dedentPop spaces line stack toks).1.headD 0
    · rw [if_pos hne] at h
      exact absurd h (by simp)
    · rw [if_neg hne] at h
      simp only [Except.ok.injEq] at h
      have hd := dedentPop_balance spaces line stack toks
      rw [show (dedentPop spaces line stack toks) = (stack', toks') from h] at hd
      refine ⟨hd.2.2 h0, ?_⟩
      have ha := hd.1
      have hb := hd.2.1
      simp only [] at ha hb
      omega

theorem emitPendingDedents_count (line : Nat) :
    ∀ (stack : List Nat) (toks : List Token),
      countTok .Dedent (emitPendingDedents line stack toks) =
        countTok .Dedent toks + (stack.length - 1) ∧
      countTok .Indent (emitPendingDedents line stack toks) =
        countTok .Indent toks := by
  intro stack
  induction stack with
  | nil => intro toks; simp [emitPendingDedents]
  | cons t rest ih =>
    intro toks
    cases rest with
    | nil => simp [emitPendingDedents]
    | cons t₂ rest₂ =>
      have h := ih (dedentTok line :: toks)
      rw [show emitPendingDedents line (t :: t₂ :: rest₂) toks
            = emitPendingDedents line (t₂ :: rest₂) (dedentTok line :: toks) from rfl]
      refine ⟨?_, ?_⟩
      · rw [h.1, countTok_cons_self .Dedent (dedentTok line) toks rfl]
        simp
        omega
      · rw [h.2, countTok_cons_other .Indent (dedentTok line) toks (by simp [dedentTok])]

theorem finishTokens_spec (st : LexState)
    (h0 : 0 ∈ st.indentStack)
    (hbal : countTok .Indent st.tokens + 1 =
      countTok .Dedent st.tokens + st.indentStack.length) :
    countTok .Indent (finishTokens st) = countTok .Dedent (finishTokens st) ∧
    ∃ t, (finishTokens st).getLast? = some t ∧ t.type = .EndOfFile := by
  have hep := emitPendingDedents_count st.line st.indentStack st.tokens
  have hlen : 1 ≤ st.indentStack.length := List.length_pos.mpr (by
    intro hc
    rw [hc] at h0
    simp at h0)
  constructor
  · unfold finishTokens
    rw [show countTok .Indent (((⟨.EndOfFile, "", st.line, st.column⟩ : Token)
          :: emitPendingDedents st.line st.indentStack st.tokens).reverse)
        = countTok .Indent ((⟨.EndOfFile, "", st.line, st.column⟩ : Token)
          :: emitPendingDedents st.line st.indentStack st.tokens) from by
      simp [countTok, List.countP_reverse]]
    rw [show countTok .Dedent (((⟨.EndOfFile, "", st.line, st.column⟩ : Token)
          :: emitPendingDedents st.line st.indentStack st.tokens).reverse)
        = countTok .Dedent ((⟨.EndOfFile, "", st.line, st.column⟩ : Token)
          :: emitPendingDedents st.line st.indentStack st.tokens) from by
      simp [countTok, List.countP_reverse]]
    rw [countTok_cons_other .Indent _ _ (by simp),
        countTok_cons_other .Dedent _ _ (by simp)]
    omega
  · refine ⟨⟨.EndOfFile, "", st.line, st.column⟩, ?_, rfl⟩
    unfold finishTokens
    rw [List.getLast?_reverse]
    rfl


theorem inv_cons_plain (t : Token) (stack : List Nat) (toks : List Token)
    (h1 : t.type ≠ .Indent) (h2 : t.type ≠ .Dedent)
    (hbal : countTok .Indent toks + 1 = countTok .Dedent toks + stack.length) :
    countTok .Indent (t :: toks) + 1 = countTok .Dedent (t :: toks) + stack.length := by
  rw [countTok_cons_other .Indent t toks h1, countTok_cons_other .Dedent t toks h2]
  exact hbal

theorem numLit_type_ne_indent (sd : Bool) :
    (if sd = true then TokenType.DoubleLiteral else TokenType.IntegerLiteral) ≠
      TokenType.Indent := by
  cases sd <;> simp

theorem numLit_type_ne_dedent (sd : Bool) :
    (if sd = true then TokenType.DoubleLiteral else TokenType.IntegerLiteral) ≠
      TokenType.Dedent := by
  cases sd <;> simp

theorem keywordType_mem (s : String) (t : TokenType) (h : keywordType s = some t) :
    t ≠ TokenType.Indent ∧ t ≠ TokenType.Dedent := by
  unfold keywordType at h
  by_cases e1 : s = "целое"
  · rw [if_pos e1] at h
    injection h with h
    subst h
    exact ⟨by decide, by decide⟩
  · rw [if_neg e1] at h
    by_cases e2 : s = "дробное"
    · rw [if_pos e2] at h
      injection h with h
      subst h
      exact ⟨by decide, by decide⟩
    · rw [if_neg e2] at h
      by_cases e3 : s = "строка"
      · rw [if_pos e3] at h
        injection h with h
        subst h
        exact ⟨by decide, by decide⟩
      · rw [if_neg e3] at h
        by_cases e4 : s = "логика"
        · rw [if_pos e4] at h
          injection h with h
          subst h
          exact ⟨by decide, by decide⟩
        · rw [if_neg e4] at h
          by_cases e5 : s = "если"
          · rw [if_pos e5] at h
            injection h with h
            subst h
            exact ⟨by decide, by decide⟩
          · rw [if_neg e5] at h
            by_cases e6 : s = "иначе"
            · rw [if_pos e6] at h
              injection h with h
              subst h
              exact ⟨by decide, by decide⟩
            · rw [if_neg e6] at h
              by_cases e7 : s = "пока"
              · rw [if_pos e7] at h
                injection h with h
                subst h
                exact ⟨by decide, by decide⟩
              · rw [if_neg e7] at h
                by_cases e8 : s = "для"
                · rw [if_pos e8] at h
                  injection h with h
                  subst h
                  exact ⟨by decide, by decide⟩
                · rw [if_neg e8] at h
                  by_cases e9 : s = "ввод"
                  · rw [if_pos e9] at h
                    injection h with h
                    subst h
                    exact ⟨by decide, by decide⟩
                  · rw [if_neg e9] at h
                    by_cases e10 : s = "вывод"
                    · rw [if_pos e10] at h
                      injection h with h
                      subst h
                      exact ⟨by decide, by decide⟩
                    · rw [if_neg e10] at h
                      by_cases e11 : s = "и"
                      · rw [if_pos e11] at h
                        injection h with h
                        subst h
                        exact ⟨by decide, by decide⟩
                      · rw [if_neg e11] at h
                        by_cases e12 : s = "или"
                        · rw [if_pos e12] at h
                          injection h with h
                          subst h
                          exact ⟨by decide, by decide⟩
                        · rw [if_neg e12] at h
                          by_cases e13 : s = "не"
                          · rw [if_pos e13] at h
                            injection h with h
                            subst h
                            exact ⟨by decide, by decide⟩
                          · rw [if_neg e13] at h
                            by_cases e14 : s = "от"
                            · rw [if_pos e14] at h
                              injection h with h
                              subst h
                              exact ⟨by decide, by decide⟩
                            · rw [if_neg e14] at h
                              by_cases e15 : s = "до"
                              · rw [if_pos e15] at h
                                injection h with h
                                subst h
                                exact ⟨by decide, by decide⟩
                              · rw [if_neg e15] at h
                                by_cases e16 : s = "правда"
                                · rw [if_pos e16] at h
                                  injection h with h
                                  subst h
                                  exact ⟨by decide, by decide⟩
                                · rw [if_neg e16] at h
                                  by_cases e17 : s = "ложь"
                                  · rw [if_pos e17] at h
                                    injection h with h
                                    subst h
                                    exact ⟨by decide, by decide⟩
                                  · rw [if_neg e17] at h
                                    exact Option.noConfusion h

theorem keywordType_getD_ne_indent (s : String) :
    (keywordType s).getD .Identifier ≠ TokenType.Indent := by
  cases hk : keywordType s with
  | none => simp
  | some t => simpa using (keywordType_mem s t hk).1

theorem keywordType_getD_ne_dedent (s : String) :
    (keywordType s).getD .Identifier ≠ TokenType.Dedent := by
  cases hk : keywordType s with
  | none => simp
  | some t => simpa using (keywordType_mem s t hk).2

set_option maxHeartbeats 1000000 in
theorem tokenizeAux_balanced :
    ∀ (fuel : Nat) (src : List Char) (st : LexState),
      0 ∈ st.indentStack →
      countTok .Indent st.tokens + 1 =
        countTok .Dedent st.tokens + st.indentStack.length →
      ∀ ts, tokenizeAux fuel src st = .ok ts →
      countTok .Indent ts = countTok .Dedent ts ∧
      ∃ t, ts.getLast? = some t ∧ t.type = .EndOfFile := by
  intro fuel
  induction fuel with
  | zero =>
    intro src st h0 hbal ts hts
    rw [show tokenizeAux 0 src st
          = .error "внутренняя ошибка: закончилось топливо лексера" from rfl] at hts
    exact absurd hts (by simp)
  | succ fuel ih =>
    intro src st h0 hbal ts hts
    rw [show tokenizeAux (fuel + 1) src st
          = lexStep (fun src' st' => tokenizeAux fuel src' st') src st from rfl] at hts
    unfold lexStep at hts
    split at hts
    case isTrue hls =>
      unfold lexLineStart at hts
      repeat' split at hts
      all_goals try exact Except.noConfusion hts
      all_goals try (simp only [Except.ok.injEq] at hts; rw [← hts]; exact finishTokens_spec st h0 hbal)
      all_goals try (refine ih _ _ ?_ ?_ ts hts <;> (first | exact h0 | exact hbal | exact inv_cons_plain _ _ _ (by simp) (by simp) hbal | exact inv_cons_plain _ _ _ (numLit_type_ne_indent _) (numLit_type_ne_dedent _) hbal))
      all_goals (rename_i stack' toks' heq; have hh := handleIndentation_balance _ _ _ _ _ _ heq h0 hbal; refine ih _ _ ?_ ?_ ts hts <;> (first | exact hh.1 | exact hh.2))
    case isFalse hls =>
      unfold lexScan at hts
      split at hts
      · simp only [Except.ok.injEq] at hts; rw [← hts]; exact finishTokens_spec st h0 hbal
      · rename_i c rest
        by_cases hc1 : (decide (c = ' ') || decide (c = '\t')) = true
        · rw [if_pos hc1] at hts
          first | exact Except.noConfusion hts | (simp only [Except.ok.injEq] at hts; rw [← hts]; exact finishTokens_spec st h0 hbal) | ((refine ih _ _ ?_ ?_ ts hts) <;> (first | exact h0 | exact hbal | (refine inv_cons_plain _ _ _ ?_ ?_ hbal <;> (first | simp | exact numLit_type_ne_indent _ | exact numLit_type_ne_dedent _ | exact keywordType_getD_ne_indent _ | exact keywordType_getD_ne_dedent _))))
        · rw [if_neg hc1] at hts
          by_cases hc2 : c = '\r'
          · rw [if_pos hc2] at hts
            first | exact Except.noConfusion hts | (simp only [Except.ok.injEq] at hts; rw [← hts]; exact finishTokens_spec st h0 hbal) | ((refine ih _ _ ?_ ?_ ts hts) <;> (first | exact h0 | exact hbal | (refine inv_cons_plain _ _ _ ?_ ?_ hbal <;> (first | simp | exact numLit_type_ne_indent _ | exact numLit_type_ne_dedent _ | exact keywordType_getD_ne_indent _ | exact keywordType_getD_ne_dedent _))))
          · rw [if_neg hc2] at hts
            by_cases hc3 : c = '\n'
            · rw [if_pos hc3] at hts
              first | exact Except.noConfusion hts | (simp only [Except.ok.injEq] at hts; rw [← hts]; exact finishTokens_spec st h0 hbal) | ((refine ih _ _ ?_ ?_ ts hts) <;> (first | exact h0 | exact hbal | (refine inv_cons_plain _ _ _ ?_ ?_ hbal <;> (first | simp | exact numLit_type_ne_indent _ | exact numLit_type_ne_dedent _ | exact keywordType_getD_ne_indent _ | exact keywordType_getD_ne_dedent _))))
            · rw [if_neg hc3] at hts
              by_cases hc4 : (decide (c = '/') && decide (rest.head? = some '/')) = true
              · rw [if_pos hc4] at hts
                split at hts
                first | exact Except.noConfusion hts | (simp only [Except.ok.injEq] at hts; rw [← hts]; exact finishTokens_spec st h0 hbal) | ((refine ih _ _ ?_ ?_ ts hts) <;> (first | exact h0 | exact hbal | (refine inv_cons_plain _ _ _ ?_ ?_ hbal <;> (first | simp | exact numLit_type_ne_indent _ | exact numLit_type_ne_dedent _ | exact keywordType_getD_ne_indent _ | exact keywordType_getD_ne_dedent _))))
              · rw [if_neg hc4] at hts
                by_cases hc5 : c = '"'
                · rw [if_pos hc5] at hts
                  split at hts
                  · exact Except.noConfusion hts
                  · first | exact Except.noConfusion hts | (simp only [Except.ok.injEq] at hts; rw [← hts]; exact finishTokens_spec st h0 hbal) | ((refine ih _ _ ?_ ?_ ts hts) <;> (first | exact h0 | exact hbal | (refine inv_cons_plain _ _ _ ?_ ?_ hbal <;> (first | simp | exact numLit_type_ne_indent _ | exact numLit_type_ne_dedent _ | exact keywordType_getD_ne_indent _ | exact keywordType_getD_ne_dedent _))))
                · rw [if_neg hc5] at hts
                  by_cases hc6 : c.isDigit = true
                  · rw [if_pos hc6] at hts
                    split at hts
                    refine ih _ _ ?_ ?_ ts hts
                    · exact h0
                    · refine inv_cons_plain _ _ _ ?_ ?_ hbal
                      · exact numLit_type_ne_indent _
                      · exact numLit_type_ne_dedent _
                  · rw [if_neg hc6] at hts
                    by_cases hc7 : isIdentifierStart c = true
                    · rw [if_pos hc7] at hts
                      split at hts
                      refine ih _ _ ?_ ?_ ts hts
                      · exact h0
                      · refine inv_cons_plain _ _ _ ?_ ?_ hbal
                        · exact keywordType_getD_ne_indent _
                        · exact keywordType_getD_ne_dedent _
                    · rw [if_neg hc7] at hts
                      by_cases hc8 : c = '+'
                      · rw [if_pos hc8] at hts
                        first | exact Except.noConfusion hts | (simp only [Except.ok.injEq] at hts; rw [← hts]; exact finishTokens_spec st h0 hbal) | ((refine ih _ _ ?_ ?_ ts hts) <;> (first | exact h0 | exact hbal | (refine inv_cons_plain _ _ _ ?_ ?_ hbal <;> (first | simp | exact numLit_type_ne_indent _ | exact numLit_type_ne_dedent _ | exact keywordType_getD_ne_indent _ | exact keywordType_getD_ne_dedent _))))
                      · rw [if_neg hc8] at hts
                        by_cases hc9 : c = '-'
                        · rw [if_pos hc9] at hts
                          first | exact Except.noConfusion hts | (simp only [Except.ok.injEq] at hts; rw [← hts]; exact finishTokens_spec st h0 hbal) | ((refine ih _ _ ?_ ?_ ts hts) <;> (first | exact h0 | exact hbal | (refine inv_cons_plain _ _ _ ?_ ?_ hbal <;> (first | simp | exact numLit_type_ne_indent _ | exact numLit_type_ne_dedent _ | exact keywordType_getD_ne_indent _ | exact keywordType_getD_ne_dedent _))))
                        · rw [if_neg hc9] at hts
                          by_cases hc10 : c = '*'
                          · rw [if_pos hc10] at hts
                            first | exact Except.noConfusion hts | (simp only [Except.ok.injEq] at hts; rw [← hts]; exact finishTokens_spec st h0 hbal) | ((refine ih _ _ ?_ ?_ ts hts) <;> (first | exact h0 | exact hbal | (refine inv_cons_plain _ _ _ ?_ ?_ hbal <;> (first | simp | exact numLit_type_ne_indent _ | exact numLit_type_ne_dedent _ | exact keywordType_getD_ne_indent _ | exact keywordType_getD_ne_dedent _))))
                          · rw [if_neg hc10] at hts
                            by_cases hc11 : c = '/'
                            · rw [if_pos hc11] at hts
                              first | exact Except.noConfusion hts | (simp only [Except.ok.injEq] at hts; rw [← hts]; exact finishTokens_spec st h0 hbal) | ((refine ih _ _ ?_ ?_ ts hts) <;> (first | exact h0 | exact hbal | (refine inv_cons_plain _ _ _ ?_ ?_ hbal <;> (first | simp | exact numLit_type_ne_indent _ | exact numLit_type_ne_dedent _ | exact keywordType_getD_ne_indent _ | exact keywordType_getD_ne_dedent _))))
                            · rw [if_neg hc11] at hts
                              by_cases hc12 : c = '%'
                              · rw [if_pos hc12] at hts
                                first | exact Except.noConfusion hts | (simp only [Except.ok.injEq] at hts; rw [← hts]; exact finishTokens_spec st h0 hbal) | ((refine ih _ _ ?_ ?_ ts hts) <;> (first | exact h0 | exact hbal | (refine inv_cons_plain _ _ _ ?_ ?_ hbal <;> (first | simp | exact numLit_type_ne_indent _ | exact numLit_type_ne_dedent _ | exact keywordType_getD_ne_indent _ | exact keywordType_getD_ne_dedent _))))
                              · rw [if_neg hc12] at hts
                                by_cases hc13 : c = '^'
                                · rw [if_pos hc13] at hts
                                  first | exact Except.noConfusion hts | (simp only [Except.ok.injEq] at hts; rw [← hts]; exact finishTokens_spec st h0 hbal) | ((refine ih _ _ ?_ ?_ ts hts) <;> (first | exact h0 | exact hbal | (refine inv_cons_plain _ _ _ ?_ ?_ hbal <;> (first | simp | exact numLit_type_ne_indent _ | exact numLit_type_ne_dedent _ | exact keywordType_getD_ne_indent _ | exact keywordType_getD_ne_dedent _))))
                                · rw [if_neg hc13] at hts
                                  by_cases hc14 : c = '('
                                  · rw [if_pos hc14] at hts
                                    first | exact Except.noConfusion hts | (simp only [Except.ok.injEq] at hts; rw [← hts]; exact finishTokens_spec st h0 hbal) | ((refine ih _ _ ?_ ?_ ts hts) <;> (first | exact h0 | exact hbal | (refine inv_cons_plain _ _ _ ?_ ?_ hbal <;> (first | simp | exact numLit_type_ne_indent _ | exact numLit_type_ne_dedent _ | exact keywordType_getD_ne_indent _ | exact keywordType_getD_ne_dedent _))))
                                  · rw [if_neg hc14] at hts
                                    by_cases hc15 : c = ')'
                                    · rw [if_pos hc15] at hts
                                      first | exact Except.noConfusion hts | (simp only [Except.ok.injEq] at hts; rw [← hts]; exact finishTokens_spec st h0 hbal) | ((refine ih _ _ ?_ ?_ ts hts) <;> (first | exact h0 | exact hbal | (refine inv_cons_plain _ _ _ ?_ ?_ hbal <;> (first | simp | exact numLit_type_ne_indent _ | exact numLit_type_ne_dedent _ | exact keywordType_getD_ne_indent _ | exact keywordType_getD_ne_dedent _))))
                                    · rw [if_neg hc15] at hts
                                      by_cases hc16 : c = ','
                                      · rw [if_pos hc16] at hts
                                        first | exact Except.noConfusion hts | (simp only [Except.ok.injEq] at hts; rw [← hts]; exact finishTokens_spec st h0 hbal) | ((refine ih _ _ ?_ ?_ ts hts) <;> (first | exact h0 | exact hbal | (refine inv_cons_plain _ _ _ ?_ ?_ hbal <;> (first | simp | exact numLit_type_ne_indent _ | exact numLit_type_ne_dedent _ | exact keywordType_getD_ne_indent _ | exact keywordType_getD_ne_dedent _))))
                                      · rw [if_neg hc16] at hts
                                        by_cases hc17 : c = '='
                                        · rw [if_pos hc17] at hts
                                          by_cases hc17i : rest.head? = some '='
                                          · rw [if_pos hc17i] at hts
                                            first | exact Except.noConfusion hts | (simp only [Except.ok.injEq] at hts; rw [← hts]; exact finishTokens_spec st h0 hbal) | ((refine ih _ _ ?_ ?_ ts hts) <;> (first | exact h0 | exact hbal | (refine inv_cons_plain _ _ _ ?_ ?_ hbal <;> (first | simp | exact numLit_type_ne_indent _ | exact numLit_type_ne_dedent _ | exact keywordType_getD_ne_indent _ | exact keywordType_getD_ne_dedent _))))
                                          · rw [if_neg hc17i] at hts
                                            first | exact Except.noConfusion hts | (simp only [Except.ok.injEq] at hts; rw [← hts]; exact finishTokens_spec st h0 hbal) | ((refine ih _ _ ?_ ?_ ts hts) <;> (first | exact h0 | exact hbal | (refine inv_cons_plain _ _ _ ?_ ?_ hbal <;> (first | simp | exact numLit_type_ne_indent _ | exact numLit_type_ne_dedent _ | exact keywordType_getD_ne_indent _ | exact keywordType_getD_ne_dedent _))))
                                        · rw [if_neg hc17] at hts
                                          by_cases hc18 : c = '<'
                                          · rw [if_pos hc18] at hts
                                            by_cases hc18i : rest.head? = some '='
                                            · rw [if_pos hc18i] at hts
                                              first | exact Except.noConfusion hts | (simp only [Except.ok.injEq] at hts; rw [← hts]; exact finishTokens_spec st h0 hbal) | ((refine ih _ _ ?_ ?_ ts hts) <;> (first | exact h0 | exact hbal | (refine inv_cons_plain _ _ _ ?_ ?_ hbal <;> (first | simp | exact numLit_type_ne_indent _ | exact numLit_type_ne_dedent _ | exact keywordType_getD_ne_indent _ | exact keywordType_getD_ne_dedent _))))
                                            · rw [if_neg hc18i] at hts
                                              first | exact Except.noConfusion hts | (simp only [Except.ok.injEq] at hts; rw [← hts]; exact finishTokens_spec st h0 hbal) | ((refine ih _ _ ?_ ?_ ts hts) <;> (first | exact h0 | exact hbal | (refine inv_cons_plain _ _ _ ?_ ?_ hbal <;> (first | simp | exact numLit_type_ne_indent _ | exact numLit_type_ne_dedent _ | exact keywordType_getD_ne_indent _ | exact keywordType_getD_ne_dedent _))))
                                          · rw [if_neg hc18] at hts
                                            by_cases hc19 : c = '>'
                                            · rw [if_pos hc19] at hts
                                              by_cases hc19i : rest.head? = some '='
                                              · rw [if_pos hc19i] at hts
                                                first | exact Except.noConfusion hts | (simp only [Except.ok.injEq] at hts; rw [← hts]; exact finishTokens_spec st h0 hbal) | ((refine ih _ _ ?_ ?_ ts hts) <;> (first | exact h0 | exact hbal | (refine inv_cons_plain _ _ _ ?_ ?_ hbal <;> (first | simp | exact numLit_type_ne_indent _ | exact numLit_type_ne_dedent _ | exact keywordType_getD_ne_indent _ | exact keywordType_getD_ne_dedent _))))
                                              · rw [if_neg hc19i] at hts
                                                first | exact Except.noConfusion hts | (simp only [Except.ok.injEq] at hts; rw [← hts]; exact finishTokens_spec st h0 hbal) | ((refine ih _ _ ?_ ?_ ts hts) <;> (first | exact h0 | exact hbal | (refine inv_cons_plain _ _ _ ?_ ?_ hbal <;> (first | simp | exact numLit_type_ne_indent _ | exact numLit_type_ne_dedent _ | exact keywordType_getD_ne_indent _ | exact keywordType_getD_ne_dedent _))))
                                            · rw [if_neg hc19] at hts
                                              exact Except.noConfusion hts

/-- Claim C2: for every source string on which tokenize succeeds, the
returned token stream contains exactly as many INDENT tokens as DEDENT
tokens, and its last token is EOF. -/
theorem C2_token_stream_balanced (src : List Char) (ts : List Token)
    (h : tokenize src = .ok ts) :
    countTok .Indent ts = countTok .Dedent ts ∧
    ∃ t, ts.getLast? = some t ∧ t.type = .EndOfFile :=
  tokenizeAux_balanced (2 * src.length + 4) src initLexState
    (by simp [initLexState]) (by simp [initLexState, countTok]) ts h

/-- Claim C2, witness: the two-line source with one indented line. -/
theorem C2_token_stream_balanced_witness :
    countTok .Indent [(⟨.Identifier, "a", 1, 1⟩ : Token), ⟨.Newline, "", 1, 2⟩,
        ⟨.Indent, "", 2, 1⟩, ⟨.Identifier, "b", 2, 5⟩, ⟨.Newline, "", 2, 6⟩,
        ⟨.Dedent, "", 3, 1⟩, ⟨.EndOfFile, "", 3, 1⟩]
      = countTok .Dedent [⟨.Identifier, "a", 1, 1⟩, ⟨.Newline, "", 1, 2⟩,
        ⟨.Indent, "", 2, 1⟩, ⟨.Identifier, "b", 2, 5⟩, ⟨.Newline, "", 2, 6⟩,
        ⟨.Dedent, "", 3, 1⟩, ⟨.EndOfFile, "", 3, 1⟩] ∧
    ∃ t, ([(⟨.Identifier, "a", 1, 1⟩ : Token), ⟨.Newline, "", 1, 2⟩,
        ⟨.Indent, "", 2, 1⟩, ⟨.Identifier, "b", 2, 5⟩, ⟨.Newline, "", 2, 6⟩,
        ⟨.Dedent, "", 3, 1⟩, ⟨.EndOfFile, "", 3, 1⟩]).getLast? = some t ∧
      t.type = .EndOfFile :=
  C2_token_stream_balanced "a\n    b\n".data _ rfl

/-! ### Scope isolation of the code generator (claim C3) -/
theorem scTL_refl (a : Mangler) : ScTL a a := ⟨rfl, rfl⟩

theorem scTL_trans {a b c : Mangler} (h1 : ScTL a b) (h2 : ScTL b c) : ScTL a c :=
  ⟨h1.1.trans h2.1, h1.2.trans h2.2⟩

theorem scTL_ne_nil {a b : Mangler} (h : ScTL a b) (hb : b.scopes ≠ []) :
    a.scopes ≠ [] := by
  intro ha
  apply hb
  have hl := h.2
  rw [ha] at hl
  exact List.length_eq_zero.mp hl.symm

theorem popScope_exact {a b : Mangler}
    (ht : a.scopes.tail = b.scopes) (hl : a.scopes.length = b.scopes.length + 1)
    (hb : b.scopes ≠ []) : a.popScope.scopes = b.scopes := by
  unfold Mangler.popScope
  rw [if_pos]
  · exact ht
  · have := List.length_pos.mpr hb
    simp only [gt_iff_lt, hl]
    omega

theorem scTL_of_eq {a b : Mangler} (h : a.scopes = b.scopes) : ScTL a b :=
  ⟨by rw [h], by rw [h]⟩

theorem emitStatement_scTL :
    ∀ s level m, m.scopes ≠ [] → ScTL (emitStatement s level m).2 m := by
  refine emitStatement.induct
    (fun s level m => m.scopes ≠ [] → ScTL (emitStatement s level m).2 m)
    (fun l level c m => m.scopes ≠ [] → ScTL (emitStatements l level c m).2 m)
    (fun l level m => m.scopes ≠ [] → ScTL (emitStmtList l level m).2 m)
    (fun bs level f m => m.scopes ≠ [] → ScTL (emitIfBranches bs level f m).2 m)
    ?_ ?_ ?_ ?_ ?_ ?_ ?_ ?_ ?_ ?_ ?_ ?_ ?_
  · intro type name initializer level m cppName md h hm
    obtain ⟨mc, msc, mdl⟩ := m
    cases msc with
    | nil => exact absurd rfl hm
    | cons top rest => simp [emitStatement, Mangler.declare, ScTL]
  · intro name value level m _
    simp only [emitStatement]
    exact scTL_refl m
  · intro name level m _
    simp only [emitStatement]
    exact scTL_refl m
  · intro value level m _
    simp only [emitStatement]
    exact scTL_refl m
  · intro branches elseBranch level m bt mb h1 et me h2 ih4 ih2 hm
    have t1 : ScTL mb m := by have t := ih4 hm; rwa [h1] at t
    have hmb : mb.scopes ≠ [] := scTL_ne_nil t1 hm
    have t2 : ScTL me mb := by have t := ih2 hmb; rwa [h2] at t
    simp only [emitStatement, h1, h2, if_pos]
    exact scTL_trans t2 t1
  · intro branches elseBranch hasElse level m bt mb h1 hne ih4 hm
    have t1 : ScTL mb m := by have t := ih4 hm; rwa [h1] at t
    simp only [emitStatement, h1]
    rw [if_neg hne]
    exact t1
  · intro condition body level m bt mb h1 ih2 hm
    have t1 : ScTL mb m := by have t := ih2 hm; rwa [h1] at t
    simp only [emitStatement, h1]
    exact t1
  · intro type name fromE toE body level m m₁ cppName md h1 bt md1 h2 ih2 hm
    have h1' : m.pushScope.declare name = (cppName, md) := h1
    simp only [Mangler.pushScope, Mangler.declare, Prod.mk.injEq] at h1'
    obtain ⟨hc, hmd⟩ := h1'
    subst hmd
    have t := ih2 (by simp)
    rw [h2] at t
    simp only [Mangler.pushScope] at t
    simp only [emitStatement, Mangler.pushScope, Mangler.declare, h2]
    refine scTL_of_eq (popScope_exact ?_ ?_ hm)
    · exact t.1
    · simpa using t.2
  · intro statements level createNewScope m
    cases createNewScope with
    | true =>
      intro m₀ cppName md h1 ih3 hm
      have hm₀ : m₀ = m.pushScope := rfl
      rw [hm₀] at h1 ih3
      have t := ih3 (by simp [Mangler.pushScope])
      rw [h1] at t
      simp only [Mangler.pushScope] at t
      simp only [emitStatements, if_pos, h1]
      refine scTL_of_eq (popScope_exact ?_ ?_ hm)
      · exact t.1
      · simpa using t.2
    | false =>
      intro m₀ cppName md h1 ih3 hm
      have hm₀ : m₀ = m := rfl
      rw [hm₀] at h1 ih3
      have t := ih3 hm
      rw [h1] at t
      simp only [emitStatements, Bool.false_eq_true, if_false, h1]
      exact t
  · intro x m _
    simp only [emitStmtList]
    exact scTL_refl m
  · intro s rest level m cppName md h1 t2txt md1 h2 ih1 ih3 hm
    have t1 : ScTL md m := by have t := ih1 hm; rwa [h1] at t
    have hmd : md.scopes ≠ [] := scTL_ne_nil t1 hm
    have t2 : ScTL md1 md := by have t := ih3 hmd; rwa [h2] at t
    simp only [emitStmtList, h1, h2]
    exact scTL_trans t2 t1
  · intro x y m _
    simp only [emitIfBranches]
    exact scTL_refl m
  · intro condition body rest level first m cppName md h1 rt md1 h2 ih2 ih4 hm
    have t1 : ScTL md m := by have t := ih2 hm; rwa [h1] at t
    have hmd : md.scopes ≠ [] := scTL_ne_nil t1 hm
    have t2 : ScTL md1 md := by have t := ih4 hmd; rwa [h2] at t
    simp only [emitIfBranches, h1, h2]
    exact scTL_trans t2 t1


theorem emitStmtList_scTL :
    ∀ l level m, m.scopes ≠ [] → ScTL (emitStmtList l level m).2 m := by
  intro l level
  induction l with
  | nil =>
    intro m _
    simp only [emitStmtList]
    exact scTL_refl m
  | cons s rest ih =>
    intro m hm
    rcases h1 : emitStatement s level m with ⟨t1, m1⟩
    have u1 : ScTL m1 m := by have t := emitStatement_scTL s level m hm; rwa [h1] at t
    have hm1 : m1.scopes ≠ [] := scTL_ne_nil u1 hm
    rcases h2 : emitStmtList rest level m1 with ⟨t2, m2⟩
    have u2 : ScTL m2 m1 := by have t := ih m1 hm1; rwa [h2] at t
    simp only [emitStmtList, h1, h2]
    exact scTL_trans u2 u1

theorem emitStatements_true_scopes :
    ∀ l level m, m.scopes ≠ [] → (emitStatements l level true m).2.scopes = m.scopes := by
  intro l level m hm
  rcases h1 : emitStmtList l level m.pushScope with ⟨txt, m1⟩
  have u1 : ScTL m1 m.pushScope := by
    have t := emitStmtList_scTL l level m.pushScope (by simp [Mangler.pushScope])
    rwa [h1] at t
  simp only [Mangler.pushScope] at u1
  simp only [emitStatements, if_pos, h1]
  refine popScope_exact ?_ ?_ hm
  · exact u1.1
  · simpa using u1.2

theorem emitIfBranches_scopes :
    ∀ bs level f m, m.scopes ≠ [] → (emitIfBranches bs level f m).2.scopes = m.scopes := by
  intro bs level
  induction bs with
  | nil =>
    intro f m _
    simp only [emitIfBranches]
  | cons hd rest ih =>
    intro f m hm
    obtain ⟨condition, body⟩ := hd
    rcases h1 : emitStatements body (level + 1) true m with ⟨bt, m1⟩
    have e1 : m1.scopes = m.scopes := by
      have t := emitStatements_true_scopes body (level + 1) m hm
      rwa [h1] at t
    rcases h2 : emitIfBranches rest level false m1 with ⟨rt, m2⟩
    have e2 : m2.scopes = m1.scopes := by
      have t := ih false m1 (by rw [e1]; exact hm)
      rwa [h2] at t
    simp only [emitIfBranches, h1, h2]
    rw [e2, e1]

theorem declare_pushScope_scopes (m : Mangler) (name : String) :
    (m.pushScope.declare name).2.scopes
    = [(name, "vr_" ++ toString (m.counter + 1))] :: m.scopes := by
  simp [Mangler.pushScope, Mangler.declare]

theorem emitStatement_forRange_mangler (type : ValueType) (name : String)
    (fromE toE : Expr) (body : List Stmt) (level : Nat) (m : Mangler) :
    (emitStatement (.forRange type name fromE toE body) level m).2
    = (emitStatements body (level + 1) true (m.pushScope.declare name).2).2.popScope := by
  rcases hD : m.pushScope.declare name with ⟨a, b⟩
  rcases hB : emitStatements body (level + 1) true b with ⟨c, d⟩
  simp only [emitStatement, hD, hB]

theorem resolve_congr {a b : Mangler} (h : a.scopes = b.scopes) :
    ∀ n, a.resolve n = b.resolve n := by
  intro n
  unfold Mangler.resolve
  rw [h]

/-- Claim C3: scope isolation during generation.  Starting from any mangler
state with a nonempty scope stack, emitting a while, for, or if/else
statement returns a mangler whose scope stack is exactly the stack before
the statement, so afterwards every reference in sibling or outer scopes
resolves to exactly the mangled name it resolved to before: the body
declarations never leak into the surrounding mangling tables. -/
theorem C3_scope_isolation (level : Nat) (m : Mangler) (hm : m.scopes ≠ []) :
    (∀ condition body,
       (emitStatement (.whileS condition body) level m).2.scopes = m.scopes ∧
       ∀ n, ((emitStatement (.whileS condition body) level m).2).resolve n
         = m.resolve n) ∧
    (∀ type name fromE toE body,
       (emitStatement (.forRange type name fromE toE body) level m).2.scopes = m.scopes ∧
       ∀ n, ((emitStatement (.forRange type name fromE toE body) level m).2).resolve n
         = m.resolve n) ∧
    (∀ branches elseBranch hasElse,
       (emitStatement (.ifS branches elseBranch hasElse) level m).2.scopes = m.scopes ∧
       ∀ n, ((emitStatement (.ifS branches elseBranch hasElse) level m).2).resolve n
         = m.resolve n) := by
  refine ⟨?_, ?_, ?_⟩
  · intro condition body
    have e : (emitStatement (.whileS condition body) level m).2.scopes = m.scopes := by
      rcases hB : emitStatements body (level + 1) true m with ⟨bt, mb⟩
      have t := emitStatements_true_scopes body (level + 1) m hm
      rw [hB] at t
      simp only [emitStatement, hB]
      exact t
    exact ⟨e, resolve_congr e⟩
  · intro type name fromE toE body
    have e : (emitStatement (.forRange type name fromE toE body) level m).2.scopes
        = m.scopes := by
      rw [emitStatement_forRange_mangler]
      have hsc : (m.pushScope.declare name).2.scopes ≠ [] := by
        rw [declare_pushScope_scopes]; simp
      have t := emitStatements_true_scopes body (level + 1) (m.pushScope.declare name).2 hsc
      refine popScope_exact ?_ ?_ hm
      · rw [t, declare_pushScope_scopes]; rfl
      · rw [t, declare_pushScope_scopes]; simp
    exact ⟨e, resolve_congr e⟩
  · intro branches elseBranch hasElse
    have e : (emitStatement (.ifS branches elseBranch hasElse) level m).2.scopes
        = m.scopes := by
      rcases hBr : emitIfBranches branches level true m with ⟨bt, mb⟩
      have eBr : mb.scopes = m.scopes := by
        have t := emitIfBranches_scopes branches level true m hm
        rwa [hBr] at t
      cases hasElse with
      | true =>
        rcases hEl : emitStatements elseBranch (level + 1) true mb with ⟨et, me⟩
        have eEl : me.scopes = mb.scopes := by
          have t := emitStatements_true_scopes elseBranch (level + 1) mb
            (by rw [eBr]; exact hm)
          rwa [hEl] at t
        simp only [emitStatement, hBr, if_pos, hEl]
        rw [eEl, eBr]
      | false =>
        simp only [emitStatement, hBr, Bool.false_eq_true, if_false]
        exact eBr
    exact ⟨e, resolve_congr e⟩

/-- Claim C3, witness: a while statement whose body declares a variable,
emitted from the initial mangler state, restores the scope stack. -/
theorem C3_scope_isolation_witness :
    Mangler.init.scopes ≠ [] ∧
    (emitStatement (.whileS (.literal .Boolean "истина" true)
        [.varDecl .Integer "x" none]) 1 Mangler.init).2.scopes
      = Mangler.init.scopes :=
  ⟨by simp [Mangler.init],
   ((C3_scope_isolation 1 Mangler.init (by simp [Mangler.init])).1
      (.literal .Boolean "истина" true) [.varDecl .Integer "x" none]).1⟩

/-! ### Distinctness of the mangled names (claim C10) -/
theorem toDigitsCore_eq :
    ∀ (fuel n : Nat) (ds : List Char), n < fuel →
      Nat.toDigitsCore 10 fuel n ds = natDigits n ++ ds := by
  intro fuel
  induction fuel with
  | zero => intro n ds h; omega
  | succ f ih =>
    intro n ds h
    simp only [Nat.toDigitsCore]
    by_cases h10 : n / 10 = 0
    · rw [if_pos h10]
      have hn : n < 10 := by omega
      unfold natDigits
      rw [dif_pos hn, Nat.mod_eq_of_lt hn]
      rfl
    · rw [if_neg h10]
      have hge : 10 ≤ n := by omega
      have hdiv : n / 10 < n := Nat.div_lt_self (by omega) (by omega)
      unfold natDigits
      rw [dif_neg (by omega)]
      rw [ih (n / 10) _ (lt_of_lt_of_le hdiv (Nat.lt_succ_iff.mp h))]
      simp

theorem toString_nat_data (n : Nat) : (toString n).data = natDigits n := by
  show (Nat.repr n).data = natDigits n
  unfold Nat.repr Nat.toDigits
  rw [toDigitsCore_eq (n + 1) n [] (Nat.lt_succ_self n)]
  simp [List.asString]

theorem digitChar_val (d : Nat) (h : d < 10) : (Nat.digitChar d).toNat - 48 = d := by
  interval_cases d <;> decide

theorem digitsVal_append (l : List Char) (c : Char) :
    digitsVal (l ++ [c]) = digitsVal l * 10 + (c.toNat - 48) := by
  unfold digitsVal
  rw [List.foldl_append]
  rfl

theorem digitsVal_natDigits : ∀ n, digitsVal (natDigits n) = n := by
  intro n
  induction n using Nat.strong_induction_on with
  | _ n ih =>
    unfold natDigits
    by_cases h : n < 10
    · rw [dif_pos h]
      unfold digitsVal
      simp only [List.foldl_cons, List.foldl_nil, Nat.zero_mul, Nat.zero_add]
      exact digitChar_val n h
    · rw [dif_neg h]
      rw [digitsVal_append]
      rw [ih (n / 10) (Nat.div_lt_self (by omega) (by omega))]
      rw [digitChar_val (n % 10) (Nat.mod_lt n (by omega))]
      omega

theorem natDigits_inj {a b : Nat} (h : natDigits a = natDigits b) : a = b := by
  rw [← digitsVal_natDigits a, ← digitsVal_natDigits b, h]

theorem vrName_inj {a b : Nat} (h : vrName a = vrName b) : a = b := by
  unfold vrName at h
  have hd : ("vr_" ++ toString a).data = ("vr_" ++ toString b).data := by rw [h]
  rw [String.data_append, String.data_append, toString_nat_data, toString_nat_data] at hd
  exact natDigits_inj (List.append_cancel_left hd)



theorem ctrInv_refl (a : Mangler) : CtrInv a a := ⟨le_refl _, id⟩

theorem ctrInv_trans {a b c : Mangler} (h1 : CtrInv a b) (h2 : CtrInv b c) :
    CtrInv a c :=
  ⟨le_trans h2.1 h1.1, fun h => h1.2 (h2.2 h)⟩

theorem ctrInv_of_eq {a b : Mangler} (hc : a.counter = b.counter)
    (hd : a.declared = b.declared) : CtrInv a b := by
  refine ⟨le_of_eq hc.symm, ?_⟩
  intro h
  unfold ManglerDeclaredInv at h ⊢
  rw [hc, hd]
  exact h

theorem pushScope_ctrInv (m : Mangler) : CtrInv m.pushScope m :=
  ctrInv_of_eq rfl rfl

theorem popScope_ctrInv (m : Mangler) : CtrInv m.popScope m := by
  refine ctrInv_of_eq ?_ ?_ <;> (unfold Mangler.popScope; split <;> rfl)

theorem declare_counter (m : Mangler) (name : String) :
    (m.declare name).2.counter = m.counter + 1 := by
  simp [Mangler.declare]

theorem declare_declared (m : Mangler) (name : String) :
    (m.declare name).2.declared = ("vr_" ++ toString (m.counter + 1)) :: m.declared := by
  simp [Mangler.declare]

theorem declare_ctrInv (m : Mangler) (name : String) : CtrInv (m.declare name).2 m := by
  constructor
  · rw [declare_counter]; omega
  · rintro ⟨hnd, hspec⟩
    constructor
    · rw [declare_declared]
      refine List.nodup_cons.mpr ⟨?_, hnd⟩
      intro hmem
      obtain ⟨i, h1, h2, h3⟩ := hspec _ hmem
      have : i = m.counter + 1 := vrName_inj h3.symm
      omega
    · rw [declare_declared, declare_counter]
      intro x hx
      rcases List.mem_cons.mp hx with hx | hx
      · exact ⟨m.counter + 1, by omega, le_refl _, hx⟩
      · obtain ⟨i, h1, h2, h3⟩ := hspec x hx
        exact ⟨i, h1, by omega, h3⟩

theorem emitStatement_ctrInv :
    ∀ s level m, CtrInv (emitStatement s level m).2 m := by
  refine emitStatement.induct
    (fun s level m => CtrInv (emitStatement s level m).2 m)
    (fun l level c m => CtrInv (emitStatements l level c m).2 m)
    (fun l level m => CtrInv (emitStmtList l level m).2 m)
    (fun bs level f m => CtrInv (emitIfBranches bs level f m).2 m)
    ?_ ?_ ?_ ?_ ?_ ?_ ?_ ?_ ?_ ?_ ?_ ?_ ?_
  · intro type name initializer level m cppName md h
    have t := declare_ctrInv m name
    rw [h] at t
    rcases hD : m.declare name with ⟨a, b⟩
    rw [hD] at h
    injection h with h1 h2
    subst h1; subst h2
    simp only [emitStatement, hD]
    exact t
  · intro name value level m
    simp only [emitStatement]
    exact ctrInv_refl m
  · intro name level m
    simp only [emitStatement]
    exact ctrInv_refl m
  · intro value level m
    simp only [emitStatement]
    exact ctrInv_refl m
  · intro branches elseBranch level m bt mb h1 et me h2 ih4 ih2
    rw [h1] at ih4
    rw [h2] at ih2
    simp only [emitStatement, h1, h2, if_pos]
    exact ctrInv_trans ih2 ih4
  · intro branches elseBranch hasElse level m bt mb h1 hne ih4
    rw [h1] at ih4
    simp only [emitStatement, h1]
    rw [if_neg hne]
    exact ih4
  · intro condition body level m bt mb h1 ih2
    rw [h1] at ih2
    simp only [emitStatement, h1]
    exact ih2
  · intro type name fromE toE body level m m₁ cppName md h1 bt md1 h2 ih2
    have h1' : m.pushScope.declare name = (cppName, md) := h1
    rw [h2] at ih2
    have tD := declare_ctrInv m.pushScope name
    rw [h1'] at tD
    rw [emitStatement_forRange_mangler]
    have hsnd : (m.pushScope.declare name).2 = md := by rw [h1']
    rw [hsnd, h2]
    exact ctrInv_trans (popScope_ctrInv md1)
      (ctrInv_trans ih2 (ctrInv_trans tD (pushScope_ctrInv m)))
  · intro statements level createNewScope m
    cases createNewScope with
    | true =>
      intro m₀ cppName md h1 ih3
      have hm₀ : m₀ = m.pushScope := rfl
      rw [hm₀] at h1 ih3
      rw [h1] at ih3
      simp only [emitStatements, if_pos, h1]
      exact ctrInv_trans (popScope_ctrInv md)
        (ctrInv_trans ih3 (pushScope_ctrInv m))
    | false =>
      intro m₀ cppName md h1 ih3
      have hm₀ : m₀ = m := rfl
      rw [hm₀] at h1 ih3
      rw [h1] at ih3
      simp only [emitStatements, Bool.false_eq_true, if_false, h1]
      exact ih3
  · intro x m
    simp only [emitStmtList]
    exact ctrInv_refl m
  · intro s rest level m cppName md h1 t2txt md1 h2 ih1 ih3
    rw [h1] at ih1
    rw [h2] at ih3
    simp only [emitStmtList, h1, h2]
    exact ctrInv_trans ih3 ih1
  · intro x y m
    simp only [emitIfBranches]
    exact ctrInv_refl m
  · intro condition body rest level first m cppName md h1 rt md1 h2 ih2 ih4
    rw [h1] at ih2
    rw [h2] at ih4
    simp only [emitIfBranches, h1, h2]
    exact ctrInv_trans ih4 ih2

theorem emitStmtList_ctrInv :
    ∀ l level m, CtrInv (emitStmtList l level m).2 m := by
  intro l level
  induction l with
  | nil =>
    intro m
    simp only [emitStmtList]
    exact ctrInv_refl m
  | cons s rest ih =>
    intro m
    rcases h1 : emitStatement s level m with ⟨t1, m1⟩
    have u1 := emitStatement_ctrInv s level m
    rw [h1] at u1
    rcases h2 : emitStmtList rest level m1 with ⟨t2, m2⟩
    have u2 := ih m1
    rw [h2] at u2
    simp only [emitStmtList, h1, h2]
    exact ctrInv_trans u2 u1

theorem emitStatements_ctrInv :
    ∀ l level c m, CtrInv (emitStatements l level c m).2 m := by
  intro l level c m
  cases c with
  | true =>
    rcases h1 : emitStmtList l level m.pushScope with ⟨txt, m1⟩
    have u1 := emitStmtList_ctrInv l level m.pushScope
    rw [h1] at u1
    simp only [emitStatements, if_pos, h1]
    exact ctrInv_trans (popScope_ctrInv m1) (ctrInv_trans u1 (pushScope_ctrInv m))
  | false =>
    rcases h1 : emitStmtList l level m with ⟨txt, m1⟩
    have u1 := emitStmtList_ctrInv l level m
    rw [h1] at u1
    simp only [emitStatements, Bool.false_eq_true, if_false, h1]
    exact u1

theorem manglerDeclaredInv_init : ManglerDeclaredInv Mangler.init := by
  refine ⟨List.nodup_nil, ?_⟩
  intro x hx
  simp [Mangler.init] at hx

theorem generateWithMangler_inv (program : List Stmt) :
    ManglerDeclaredInv (generateWithMangler program).2 := by
  rcases h : emitStatements program 1 false Mangler.init with ⟨body, m⟩
  have t := emitStatements_ctrInv program 1 false Mangler.init
  rw [h] at t
  simp only [generateWithMangler, h]
  exact t.2 manglerDeclaredInv_init

/-- Claim C10: every declaration emission calls NameMangler::declare, which
returns vr_ followed by the counter bumped by one, and during one generate
call the ledger of all names handed out by declare has no duplicates: any
two declarations, including two declarations of the same BearLang name in
the same scope, receive distinct mangled C++ identifiers. -/
theorem C10_distinct_mangled_names :
    (∀ (m : Mangler) (name : String),
        (m.declare name).1 = "vr_" ++ toString (m.counter + 1) ∧
        (m.declare name).2.counter = m.counter + 1) ∧
    ∀ program : List Stmt, (generateWithMangler program).2.declared.Nodup := by
  constructor
  · intro m name
    exact ⟨by simp [Mangler.declare], declare_counter m name⟩
  · intro program
    exact (generateWithMangler_inv program).1
